import Mathlib

/-!
# DocPilot: verification of the ingestion-and-retrieval engine

Shallow embedding of the core components of the DocPilot repository:

* the text chunker (`src/shared/src/chunking.ts`),
* the in-memory vector store (`VectorStore`),
* the LLM pipeline's reranker fallback (`LLMPipeline.rerank`),
* the retrieval engine result cache and `intelligentRetrieve`
  (`src/worker/src/retrievalEngine.ts`),
* the crawl scheduler (`IngestionWorker`, `src/worker/src/ingestionWorker.ts`).

Numbers that the source manipulates as JavaScript floats are modelled with
exact arithmetic: scores carried opaquely through the pipeline are rationals,
and the cosine-similarity computation (which needs square roots) is modelled
over the reals.  JavaScript `Array.prototype.sort` (stable since ES2019) is
modelled with `List.mergeSort`, which is a stable sort.
-/

namespace DocPilot

/-! ## Chunker (`src/shared/src/chunking.ts`)

`chunkText` normalizes whitespace, splits the text into whitespace-separated
tokens, and slides a window of `tokensPerChunk` tokens with `overlapTokens`
overlap across the token stream.  A final window shorter than
`minTokensPerChunk` is merged into the previous chunk.

A chunk's `text` is always the space-join of its token list (`slice.join(' ')`
on creation, and the merge appends `' ' + uniqueSlice.join(' ')` followed by
`trim`), so the model stores the token list and derives `text`/`charCount`
from it.  The random `nanoid` chunk id is omitted: it is pure id generation
with no semantic content, and no claim mentions it.
-/

/-- The character class matched by the JavaScript regex `\s`
(ECMA-262 WhiteSpace and LineTerminator). -/
def jsWhitespace (c : Char) : Bool :=
  c = ' ' || c = '\t' || c = '\n' || c = '\r' || c = '\x0b' || c = '\x0c' ||
  c = '\u00a0' || c = '\u1680' || c = '\u2000' || c = '\u2001' ||
  c = '\u2002' || c = '\u2003' || c = '\u2004' || c = '\u2005' ||
  c = '\u2006' || c = '\u2007' || c = '\u2008' || c = '\u2009' ||
  c = '\u200a' || c = '\u2028' || c = '\u2029' || c = '\u202f' ||
  c = '\u205f' || c = '\u3000' || c = '\ufeff'

/-- `rawText.replace(/\r\n|\r/g, '\n')`: every CRLF pair and every lone CR
becomes LF. -/
def convertNewlines : List Char → List Char
  | [] => []
  | '\r' :: '\n' :: rest => '\n' :: convertNewlines rest
  | '\r' :: rest => '\n' :: convertNewlines rest
  | c :: rest => c :: convertNewlines rest

/-- `.replace(/\s+/g, ' ')`, written with a "previous character was
whitespace" flag so that every maximal run of whitespace characters is
replaced by a single space. -/
def collapseWsAux : Bool → List Char → List Char
  | _, [] => []
  | prevWs, c :: rest =>
    if jsWhitespace c then
      if prevWs then collapseWsAux true rest
      else ' ' :: collapseWsAux true rest
    else c :: collapseWsAux false rest

/-- `.replace(/\s+/g, ' ')`: every maximal run of whitespace becomes a single
space. -/
def collapseWs (l : List Char) : List Char :=
  collapseWsAux false l

/-- `String.prototype.trim`: strip leading and trailing whitespace. -/
def jsTrim (l : List Char) : List Char :=
  ((l.dropWhile (jsWhitespace ·)).reverse.dropWhile (jsWhitespace ·)).reverse

/-- `normalizeText` from `chunking.ts`. -/
def normalizeText (rawText : String) : String :=
  ⟨jsTrim (collapseWs (convertNewlines rawText.data))⟩

/-- `String.prototype.split(' ')` on the character list: cut at every space,
keeping empty pieces (they are filtered out afterwards, as in the source). -/
def splitOnSpace : List Char → List (List Char)
  | [] => [[]]
  | c :: rest =>
    if c = ' ' then [] :: splitOnSpace rest
    else
      match splitOnSpace rest with
      | [] => [[c]]
      | t :: ts => (c :: t) :: ts

/-- `normalized.split(' ').filter(Boolean)`: whitespace-separated tokens of
the normalized text. -/
def splitTokens (s : String) : List String :=
  ((splitOnSpace s.data).map (fun l => (⟨l⟩ : String))).filter (fun t => t ≠ "")

/-- One emitted text chunk.  `tokens` is the chunk's token list; the source's
`text` field is the space-join of `tokens` and `charCount` its length. -/
structure TextChunk where
  jobId : String
  url : String
  order : Nat
  headingPath : List String
  tokens : List String
  wordCount : Nat
  charCount : Nat
deriving Repr, DecidableEq, Inhabited

/-- The chunk `text` as stored by the source: `slice.join(' ')`. -/
def TextChunk.text (c : TextChunk) : String :=
  String.intercalate " " c.tokens

/-- Build the chunk pushed by the loop body of `chunkText`. -/
def mkChunk (jobId url : String) (headingPath : List String) (order : Nat)
    (slice : List String) : TextChunk :=
  { jobId := jobId, url := url, order := order, headingPath := headingPath,
    tokens := slice, wordCount := slice.length,
    charCount := (String.intercalate " " slice).length }

/-- Append the unique suffix of an undersized tail window to a chunk
(`previous.text += uniqueSlice`, guarded by `uniqueSlice.length > 0`). -/
def extendChunk (prev : TextChunk) (uniqueSlice : List String) : TextChunk :=
  if uniqueSlice.isEmpty then prev
  else
    { prev with
      tokens := prev.tokens ++ uniqueSlice
      wordCount := prev.wordCount + uniqueSlice.length
      charCount := (String.intercalate " " (prev.tokens ++ uniqueSlice)).length }

/-- Apply `extendChunk` to the last element of the accumulated chunk list
(`chunks[chunks.length - 1]`). -/
def mergeTailChunk : List TextChunk → List String → List TextChunk
  | [], _ => []
  | [prev], u => [extendChunk prev u]
  | c :: rest, u => c :: mergeTailChunk rest u

/-- The `for` loop of `chunkText`: slide a window of `tokensPerChunk` tokens
over `toks` at step `max (tokensPerChunk - overlapTokens) 1`; an undersized
window is merged into the previous chunk and the loop breaks.

The loop is phrased with an explicit iteration budget `fuel` so that it is
structurally recursive (and hence computable by the kernel); since `start`
grows by at least one per iteration, any `fuel ≥ toks.length - start`
reproduces the source loop exactly (`chunkLoop_fuel_irrelevant` below), and
`chunkText` passes `toks.length`. -/
def chunkLoop (jobId url : String) (headingPath : List String)
    (toks : List String) (tokensPerChunk overlapTokens minTok : Nat) :
    Nat → Nat → Nat → List TextChunk → List TextChunk
  | 0, _, _, acc => acc
  | fuel + 1, start, order, acc =>
    if start < toks.length then
      let slice := (toks.drop start).take tokensPerChunk
      if slice.length < minTok ∧ acc ≠ [] then
        mergeTailChunk acc (slice.drop (min overlapTokens slice.length))
      else
        chunkLoop jobId url headingPath toks tokensPerChunk overlapTokens minTok
          fuel (start + max (tokensPerChunk - overlapTokens) 1) (order + 1)
          (acc ++ [mkChunk jobId url headingPath order slice])
    else acc

/-- Options record of `chunkText` (`ChunkingOptions`). -/
structure ChunkingOptions where
  jobId : String
  url : String
  headingPath : Option (List String) := none
  tokensPerChunk : Option Nat := none
  overlapTokens : Option Nat := none
  minTokensPerChunk : Option Nat := none
deriving Repr, DecidableEq

def DEFAULT_TOKENS_PER_CHUNK : Nat := 800
def DEFAULT_OVERLAP_TOKENS : Nat := 160
def MIN_TOKENS_PER_CHUNK : Nat := 80

/-- The effective window size used by `chunkText`:
`Math.max(options.tokensPerChunk ?? 800, options.minTokensPerChunk ?? 80)`. -/
def effectiveWindow (options : ChunkingOptions) : Nat :=
  max (options.tokensPerChunk.getD DEFAULT_TOKENS_PER_CHUNK)
    (options.minTokensPerChunk.getD MIN_TOKENS_PER_CHUNK)

/-- The effective overlap used by `chunkText`:
`Math.min(options.overlapTokens ?? 160, Math.max(tokensPerChunk - 1, 0))`
(truncated subtraction on `Nat` is exactly `Math.max (· - 1) 0`). -/
def effectiveOverlap (options : ChunkingOptions) : Nat :=
  min (options.overlapTokens.getD DEFAULT_OVERLAP_TOKENS)
    (effectiveWindow options - 1)

/-- `chunkText` from `chunking.ts`. -/
def chunkText (rawText : String) (options : ChunkingOptions) : List TextChunk :=
  let normalized := normalizeText rawText
  if normalized = "" then []
  else
    let toks := splitTokens normalized
    if toks = [] then []
    else
      chunkLoop options.jobId options.url (options.headingPath.getD [])
        toks (effectiveWindow options) (effectiveOverlap options)
        (options.minTokensPerChunk.getD MIN_TOKENS_PER_CHUNK) toks.length 0 0 []

/-- The last `n` elements of a list (the "last `overlap` tokens" of a chunk). -/
def lastN (n : Nat) (l : List α) : List α :=
  l.drop (l.length - n)

/-- The `k`-th sliding window of `chunkText`'s loop: the window of
`tokensPerChunk` tokens starting at offset `k * step`. -/
def chunkWindow (toks : List String) (tokensPerChunk step k : Nat) : List String :=
  (toks.drop (k * step)).take tokensPerChunk

/-- The first `m` chunks in the canonical (no merge yet) form produced by
the loop of `chunkText`. -/
def stdChunks (jobId url : String) (headingPath : List String) (toks : List String)
    (tokensPerChunk step m : Nat) : List TextChunk :=
  (List.range m).map
    (fun k => mkChunk jobId url headingPath k (chunkWindow toks tokensPerChunk step k))

/-! ## Vector store (`VectorStore`, `src/unnamed/part_001`)

The store is an in-memory array of documents in insertion order.  Vector
components are JavaScript floats in the source; they are modelled as exact
reals (the square root forces `ℝ`), so the definitions below are
noncomputable.  `Array.prototype.sort` with the comparator
`(a, b) => b.score - a.score` is a stable sort (ES2019), modelled by
`List.mergeSort` with the boolean relation `b.score ≤ a.score` ("a may stay
before b iff a.score ≥ b.score"), which is exactly stable descending-score
order. -/

open Classical

/-- One stored vector document (`VectorDocument`); `metadata` fields that no
claim touches (word/char counts, timestamps) are omitted. -/
structure VectorDocument where
  id : String
  jobId : String
  url : String
  chunkIndex : Nat
  text : String
  headings : List String
  vector : List ℝ

/-- `VectorStore.cosineSimilarity`: fails fast on a dimension mismatch,
returns `0` whenever either magnitude is zero, else the normalized dot
product. -/
noncomputable def cosineSimilarity (a b : List ℝ) : Except String ℝ :=
  if a.length ≠ b.length then .error "Vector dimensions must match"
  else
    let dotProduct := ((a.zip b).map (fun p => p.1 * p.2)).sum
    let normA := (a.map (fun x => x * x)).sum
    let normB := (b.map (fun x => x * x)).sum
    let magnitude := Real.sqrt normA * Real.sqrt normB
    if magnitude = 0 then .ok 0 else .ok (dotProduct / magnitude)

/-- A search result together with the insertion index of its document in the
store (the index is the model's name for "original insertion order"). -/
structure RankedResult where
  idx : Nat
  document : VectorDocument
  score : ℝ

/-- `SearchResult` as returned by `VectorStore.search`. -/
structure SearchResult where
  document : VectorDocument
  score : ℝ

/-- The candidate documents of a search: all stored documents, restricted to
the given job ids when a non-empty filter is supplied
(`if (jobIds && jobIds.length > 0) ... filter`), each paired with its
insertion index. -/
def candidateDocs (store : List VectorDocument) (jobIds : Option (List String)) :
    List (Nat × VectorDocument) :=
  let enum := store.enum
  match jobIds with
  | some ids => if ids.isEmpty then enum else enum.filter (fun p => ids.contains p.2.jobId)
  | none => enum

/-- Score every candidate with `cosineSimilarity`; the first failing
similarity computation aborts the whole search (the source's `map` runs
inside a `try` whose failure rethrows). -/
noncomputable def scoreCandidates (queryVector : List ℝ) :
    List (Nat × VectorDocument) → Except String (List RankedResult)
  | [] => .ok []
  | (i, d) :: rest =>
    match cosineSimilarity queryVector d.vector with
    | .error e => .error e
    | .ok s =>
      match scoreCandidates queryVector rest with
      | .error e => .error e
      | .ok others => .ok ({ idx := i, document := d, score := s } :: others)

/-- The comparator of `VectorStore.search` as a stable-sort relation:
`a` may precede `b` exactly when `a.score ≥ b.score`. -/
noncomputable def searchLe (a b : RankedResult) : Bool :=
  decide (b.score ≤ a.score)

/-- `VectorStore.search`, keeping insertion indices on the results. -/
noncomputable def searchRanked (store : List VectorDocument) (queryVector : List ℝ)
    (limit : Nat) (jobIds : Option (List String)) : Except String (List RankedResult) :=
  (scoreCandidates queryVector (candidateDocs store jobIds)).map
    (fun results => (results.mergeSort searchLe).take limit)

/-- `VectorStore.search`: top-`limit` candidates by descending cosine
similarity. -/
noncomputable def search (store : List VectorDocument) (queryVector : List ℝ)
    (limit : Nat) (jobIds : Option (List String)) : Except String (List SearchResult) :=
  (searchRanked store queryVector limit jobIds).map
    (List.map (fun r => { document := r.document, score := r.score }))

/-! ## LLM pipeline reranker (`LLMPipeline.rerank`, `src/unnamed/part_005`)

Scores here are opaque payload for the retrieval engine (never combined
arithmetically, only compared), so they are modelled as exact rationals.
The embedding-based scoring inside the `try` block calls the external
reranker model; it is abstracted as the `attempt` argument, whose `.error`
case is the `catch` branch. -/

/-- One rerank result (`RerankResult`): index into the candidate list plus a
relevance score. -/
structure RerankResult where
  index : Nat
  score : ℚ
deriving Repr, DecidableEq, Inhabited

/-- The degraded-mode result of `LLMPipeline.rerank`: original order with
synthetic scores `1.0 - index * 0.01`. -/
def fallbackRerank (texts : List String) : List RerankResult :=
  (List.range texts.length).map (fun index => { index := index, score := 1 - (index : ℚ) * (1 / 100) })

/-- `LLMPipeline.rerank`: the fallback order is used when reranking is
disabled (`enableReranking`), the reranker model is unavailable
(`rerankerExtractor === null`), the candidate list is empty, or the scoring
computation (`attempt`) throws. -/
def rerankLLM (enableReranking rerankerAvailable : Bool)
    (attempt : Except String (List RerankResult)) (texts : List String) :
    List RerankResult :=
  if !enableReranking || !rerankerAvailable || texts.isEmpty then fallbackRerank texts
  else
    match attempt with
    | .ok scores => scores
    | .error _ => fallbackRerank texts

/-! ## Retrieval engine (`src/worker/src/retrievalEngine.ts`)

The engine's result cache is a JavaScript `Map` keyed by
`normalizedQuery:limit:sortedJobIds`; it is modelled as an association list
in insertion order (`Map` iteration order), with `set` replacing in place
and `delete` removing the entry.

The stages that call external capabilities (embedding + vector search =
`this.retrieve`, rerank, answer extraction, summarization) are parameters
(`Caps`); an `Except.error` value models a rejected promise, which the
source's `try/catch` converts into the basic-retrieval fallback.  Wall-clock
reads (`Date.now()`) are modelled by two time parameters: `tStart` for the
start-of-call reads and `tEnd` for the end-of-call reads. -/

/-- A code block extracted by `extractCodeBlocks`. -/
structure CodeBlock where
  language : String
  code : String
  context : String
deriving Repr, DecidableEq, Inhabited

/-- One chunk of an intelligent retrieval result (`IntelligentChunkResult`).
Optional fields are `none` where the source leaves them `undefined`. -/
structure IntelligentChunkResult where
  chunkId : String
  url : String
  headings : List String
  text : String
  score : ℚ
  rerankScore : Option ℚ
  answer : Option String
  answerConfidence : Option ℚ
  summary : Option String
  codeExamples : Option (List CodeBlock)
deriving Repr, DecidableEq, Inhabited

/-- `IntelligentRetrievalResult`. -/
structure IntelligentRetrievalResult where
  chunks : List IntelligentChunkResult
  totalFound : Nat
  queryTime : ℤ
  llmProcessingTime : ℤ
  fromCache : Option Bool
deriving Repr, DecidableEq, Inhabited

/-- One cache entry (`CacheEntry`). -/
structure CacheEntry where
  result : IntelligentRetrievalResult
  timestamp : ℤ
  hits : Nat
deriving Repr, DecidableEq, Inhabited

/-- The result cache: an association list in `Map` insertion order. -/
abbrev Cache := List (String × CacheEntry)

/-- `Map.prototype.set`: replace in place if present, else append. -/
def mapSet : Cache → String → CacheEntry → Cache
  | [], k, v => [(k, v)]
  | (k', v') :: rest, k, v =>
    if k' = k then (k, v) :: rest else (k', v') :: mapSet rest k v

/-- `Map.prototype.delete`. -/
def mapDelete : Cache → String → Cache
  | [], _ => []
  | (k', v') :: rest, k =>
    if k' = k then rest else (k', v') :: mapDelete rest k

/-- `String.prototype.toLowerCase` (ASCII case mapping; the claims only need
that equal queries map to equal keys). -/
def jsToLower (s : String) : String :=
  ⟨s.data.map Char.toLower⟩

/-- `String.prototype.trim` on a string. -/
def jsTrimStr (s : String) : String :=
  ⟨jsTrim s.data⟩

/-- `jobIds?.sort().join(',') || 'all'`: the sorted, comma-joined job-id
scope, with `'all'` both for an absent filter and for a falsy (empty) join
result. -/
def sortedJobIdKey (jobIds : Option (List String)) : String :=
  match jobIds with
  | none => "all"
  | some ids =>
    let joined := String.intercalate "," (ids.mergeSort (fun a b => decide (a ≤ b)))
    if joined = "" then "all" else joined

/-- `generateCacheKey`. -/
def generateCacheKey (query : String) (limit : Nat) (jobIds : Option (List String)) : String :=
  jsTrimStr (jsToLower query) ++ ":" ++ toString limit ++ ":" ++ sortedJobIdKey jobIds

def cacheTTL : ℤ := 1000 * 60 * 30

def cacheMaxSize : Nat := 100

/-- `getCached`: miss on absent key; expired entries (age strictly above the
TTL) are deleted and reported as a miss; a hit bumps the hit counter. -/
def getCached (now : ℤ) (cache : Cache) (key : String) :
    Option IntelligentRetrievalResult × Cache :=
  match List.lookup key cache with
  | none => (none, cache)
  | some entry =>
    if now - entry.timestamp > cacheTTL then (none, mapDelete cache key)
    else (some entry.result, mapSet cache key { entry with hits := entry.hits + 1 })

/-- The eviction score of `setCache`:
`entry.timestamp / 1000 + entry.hits * 60000` (recent and frequently hit
entries score high and are kept). -/
def cacheEvictionScore (e : CacheEntry) : ℚ :=
  (e.timestamp : ℚ) / 1000 + (e.hits : ℚ) * 60000

/-- The key evicted by `setCache` when the cache is full: the first entry
with the strictly smallest eviction score (`lruScore` starts at `Infinity`
and is replaced only on strict `<`). -/
def lruVictim (cache : Cache) : Option String :=
  (cache.foldl
    (fun best p =>
      match best with
      | none => some (p.1, cacheEvictionScore p.2)
      | some (bk, bs) =>
        if cacheEvictionScore p.2 < bs then some (p.1, cacheEvictionScore p.2)
        else some (bk, bs))
    none).map Prod.fst

/-- `setCache`: evict the lowest-scoring entry when at capacity, then insert
the new entry with the current timestamp and zero hits. -/
def setCache (now : ℤ) (cache : Cache) (key : String)
    (result : IntelligentRetrievalResult) : Cache :=
  let cache' :=
    if cacheMaxSize ≤ cache.length then
      match lruVictim cache with
      | some victim => mapDelete cache victim
      | none => cache
    else cache
  mapSet cache' key { result := result, timestamp := now, hits := 0 }

/-- `RetrievalQuery`. -/
structure RetrievalQuery where
  text : String
  limit : Option Nat
  jobIds : Option (List String)
  threshold : Option ℚ
deriving Repr, DecidableEq, Inhabited

/-- The chunk record inside one element of `RetrievalResult.chunks`; only
the fields the intelligent pipeline reads downstream (`id`, `text`) are
kept. -/
structure RetrievedChunk where
  id : String
  text : String
deriving Repr, DecidableEq, Inhabited

/-- One element of `RetrievalResult.chunks`. -/
structure RetrievalItem where
  chunk : RetrievedChunk
  score : ℚ
  url : String
  headings : List String
deriving Repr, DecidableEq, Inhabited

/-- `RetrievalResult` as returned by `RetrievalEngine.retrieve`. -/
structure RetrievalResult where
  chunks : List RetrievalItem
  totalFound : Nat
  queryTime : ℤ
deriving Repr, DecidableEq, Inhabited

/-- The external capabilities consumed by `intelligentRetrieve`:
`retrieveFn` is `this.retrieve` (embedding + vector search), the others are
the `LLMPipeline` calls and the internal regex-based `extractCodeBlocks`
(opaque here: no claim concerns its output).  `Except.error` models a
rejected promise / thrown error. -/
structure Caps where
  retrieveFn : RetrievalQuery → Except String RetrievalResult
  rerankFn : String → List String → Except String (List RerankResult)
  extractAnswerFn : String → String → Except String (Option (String × ℚ))
  summarizeFn : String → Except String (Option String)
  extractCodeBlocksFn : String → List CodeBlock

/-- Decidable equality for `Except`, so concrete capability outcomes can be
checked by `decide`. -/
instance {ε α : Type} [DecidableEq ε] [DecidableEq α] : DecidableEq (Except ε α) :=
  fun x y =>
    match x, y with
    | .ok a, .ok b =>
      if h : a = b then .isTrue (by rw [h]) else .isFalse (fun hh => h (Except.ok.inj hh))
    | .error a, .error b =>
      if h : a = b then .isTrue (by rw [h]) else .isFalse (fun hh => h (Except.error.inj hh))
    | .ok _, .error _ => .isFalse (fun hh => Except.noConfusion hh)
    | .error _, .ok _ => .isFalse (fun hh => Except.noConfusion hh)

/-- JavaScript `x || d` for an optional numeric `x` (`0` is falsy). -/
def jsOrNat (x : Option Nat) (d : Nat) : Nat :=
  match x with
  | none => d
  | some n => if n = 0 then d else n

/-- The fallback reshaping of a basic retrieval item into the
intelligent-result schema (the `catch` branch of `intelligentRetrieve`). -/
def reshapeBasic (c : RetrievalItem) : IntelligentChunkResult :=
  { chunkId := c.chunk.id, url := c.url, headings := c.headings, text := c.chunk.text,
    score := c.score, rerankScore := none, answer := none, answerConfidence := none,
    summary := none, codeExamples := none }

/-- Stage 3 of the pipeline for one selected chunk: extract an answer,
summarize, extract code blocks (`Promise.all` body). -/
def mkIntelligentChunk (caps : Caps) (queryText : String) (c : RetrievalItem)
    (rerankScore : ℚ) : Except String IntelligentChunkResult := do
  let answerResult ← caps.extractAnswerFn queryText c.chunk.text
  let summaryResult ← caps.summarizeFn c.chunk.text
  .ok { chunkId := c.chunk.id, url := c.url, headings := c.headings, text := c.chunk.text,
        score := c.score, rerankScore := some rerankScore,
        answer := answerResult.map Prod.fst,
        answerConfidence := answerResult.map Prod.snd,
        summary := summaryResult,
        codeExamples := some (caps.extractCodeBlocksFn c.chunk.text) }

/-- The post-filter of stage 5: if some answer confidence exceeds `0.3`,
keep only chunks whose confidence is falsy (`undefined` or `0`) or above
`0.1`. -/
def postFilterChunks (intelligentChunks : List IntelligentChunkResult) :
    List IntelligentChunkResult :=
  let hasGoodAnswer := intelligentChunks.any (fun c => decide ((3 : ℚ) / 10 < c.answerConfidence.getD 0))
  if hasGoodAnswer then
    intelligentChunks.filter (fun c =>
      match c.answerConfidence with
      | none => true
      | some conf => decide (conf = 0) || decide ((1 : ℚ) / 10 < conf))
  else intelligentChunks

/-- The `try` block of `intelligentRetrieve` after a cache miss: inflated
basic retrieval, early return on an empty corpus (not cached), rerank,
top-`limit` selection, per-chunk extraction, post-filter, and caching.  An
out-of-range rerank index makes `basicResults.chunks[r.index]` `undefined`,
so the later `.chunk.text` access throws — modelled as an error. -/
def intelligentPipeline (caps : Caps) (tStart tEnd : ℤ) (cache : Cache)
    (query : RetrievalQuery) (effLimit : Nat) (key : String) :
    Except String (IntelligentRetrievalResult × Cache) :=
  let initialLimit := max (effLimit * 4) 20
  match caps.retrieveFn { query with limit := some initialLimit } with
  | .error e => .error e
  | .ok basicResults =>
    if basicResults.chunks.isEmpty then
      .ok ({ chunks := [], totalFound := 0, queryTime := tEnd - tStart,
             llmProcessingTime := 0, fromCache := none }, cache)
    else
      let textsToRerank := basicResults.chunks.map (fun c => c.chunk.text)
      match caps.rerankFn query.text textsToRerank with
      | .error e => .error e
      | .ok rerankResults =>
        let topSelected := rerankResults.take effLimit
        if topSelected.all (fun r => r.index < basicResults.chunks.length) then
          match topSelected.mapM (fun r =>
              mkIntelligentChunk caps query.text (basicResults.chunks.getD r.index default) r.score) with
          | .error e => .error e
          | .ok intelligentChunks =>
            let filteredChunks := postFilterChunks intelligentChunks
            let result : IntelligentRetrievalResult :=
              { chunks := filteredChunks, totalFound := filteredChunks.length,
                queryTime := tEnd - tStart, llmProcessingTime := tEnd - tStart,
                fromCache := some false }
            .ok (result, setCache tEnd cache key result)
        else .error "Cannot read properties of undefined"

/-- `intelligentRetrieve`.  Returns the result (or the propagated error),
the updated cache, and an instrumentation bit recording whether the
search/rerank/extraction pipeline was (re)computed (`false` exactly on a
cache hit). -/
def intelligentRetrieve (caps : Caps) (tStart tEnd : ℤ) (cache : Cache)
    (query : RetrievalQuery) :
    Except String IntelligentRetrievalResult × Cache × Bool :=
  let effLimit := jsOrNat query.limit 5
  let key := generateCacheKey query.text effLimit query.jobIds
  match getCached tStart cache key with
  | (some cached, cache₁) => (.ok { cached with fromCache := some true }, cache₁, false)
  | (none, cache₁) =>
    match intelligentPipeline caps tStart tEnd cache₁ query effLimit key with
    | .ok (result, cache₂) => (.ok result, cache₂, true)
    | .error _ =>
      match caps.retrieveFn query with
      | .error e => (.error e, cache₁, true)
      | .ok basicResult =>
        (.ok { chunks := basicResult.chunks.map reshapeBasic
               totalFound := basicResult.totalFound
               queryTime := tEnd - tStart
               llmProcessingTime := tEnd - tStart
               fromCache := none }, cache₁, true)

/-- The query-status / result events emitted by
`IngestionWorker.handleQuery`. -/
inductive WorkerQueryEvent
  | statusStarted
  | statusRetrieving (retrievedCandidates : Nat)
  | statusScoring (consideredChunks : Nat)
  | intelligentQueryResult (chunks : List IntelligentChunkResult) (totalFound : Nat)
      (queryTime llmProcessingTime : ℤ) (fromCache : Option Bool)
  | statusCompleted (totalResults : Nat)
  | statusFailed (error : String)
  | workerErrorMsg (message : String)
deriving Repr, DecidableEq

/-- The payload of a `query` control message. -/
structure QueryPayload where
  query : String
  jobId : Option String
  limit : Option Nat
deriving Repr, DecidableEq, Inhabited

/-- `IngestionWorker.handleQuery`: runs `intelligentRetrieve` and emits
`started → retrieving → scoring → intelligent-query-result → completed` on
success, or `started → failed` plus a worker error when the retrieval call
throws. -/
def handleQuery (caps : Caps) (tStart tEnd : ℤ) (cache : Cache)
    (payload : QueryPayload) : Cache × List WorkerQueryEvent :=
  let query : RetrievalQuery :=
    { text := payload.query
      limit := some (jsOrNat payload.limit 5)
      jobIds := match payload.jobId with
                | some j => if j = "" then none else some [j]
                | none => none
      threshold := none }
  match intelligentRetrieve caps tStart tEnd cache query with
  | (.ok result, cache', _) =>
    (cache',
     [.statusStarted, .statusRetrieving result.totalFound,
      .statusScoring result.chunks.length,
      .intelligentQueryResult result.chunks result.totalFound result.queryTime
        result.llmProcessingTime result.fromCache,
      .statusCompleted result.totalFound])
  | (.error e, cache', _) =>
    (cache', [.statusStarted, .statusFailed e, .workerErrorMsg ("Query failed: " ++ e)])

/-! ## Crawl scheduler (`IngestionWorker`, `src/worker/src/ingestionWorker.ts`)

The worker owns at most one mutable `JobState`.  WHATWG URL parsing
(`new URL(...)` with fragment stripping and query-parameter sorting) is an
external platform capability; it is a parameter `Env.urlModel`, returning
the normalized rendering and the hostname of a parseable URL and `none` for
an invalid one.

`processUrl` is split at its `await this.fetchAndParse(...)` suspension
point: `startTask` is the synchronous prefix (cancellation check plus the
`fetching` event), and `finishTask` is the continuation that runs when the
fetch settles, taking the fetch and embedding/indexing outcomes as
parameters.  The continuation re-reads `this.jobState`, which may have
become `null` through cancellation while the fetch was in flight; the model
mirrors every such re-read. -/

/-- What `new URL(raw)` exposes of a parseable URL after the worker's
normalization (fragment stripped, query parameters sorted). -/
structure UrlParts where
  normalized : String
  hostname : String
deriving Repr, DecidableEq, Inhabited

/-- The external URL-parsing capability. -/
structure Env where
  urlModel : String → Option UrlParts

/-- `normalizeUrl`: `null` for an invalid URL. -/
def normalizeUrl (env : Env) (rawUrl : String) : Option String :=
  (env.urlModel rawUrl).map (fun u => u.normalized)

/-- `safeHostname`: `null` for an invalid URL. -/
def safeHostname (env : Env) (rawUrl : String) : Option String :=
  (env.urlModel rawUrl).map (fun u => u.hostname)

/-- `IngestionJobConfig`. -/
structure IngestionJobConfig where
  jobId : String
  seedUrls : List String
  maxDepth : Nat
  maxPages : Nat
  followExternal : Bool
  allowedDomains : Option (List String) := none
  userAgent : Option String := none
  tokensPerChunk : Option Nat := none
  overlapTokens : Option Nat := none
  minTokensPerChunk : Option Nat := none
  concurrency : Option Nat := none
deriving Repr, DecidableEq, Inhabited

/-- The mutable per-job state (`JobState`); `pending` is the content of the
bounded-concurrency `PQueue` as (url, depth) tasks. -/
structure JobState where
  config : IngestionJobConfig
  pending : List (String × Nat)
  visited : List String
  processedPages : Nat
  discoveredPages : Nat
  cancelled : Bool
  hostAllowList : List String
deriving Repr, DecidableEq, Inhabited

/-- Page lifecycle statuses of `page-progress` events. -/
inductive PageStatus
  | queued
  | fetching
  | embedding
  | indexed
  | parsed
  | skipped
  | failed
deriving Repr, DecidableEq

/-- Job lifecycle statuses of `job-status` events. -/
inductive JobLifecycle
  | running
  | completed
  | cancelled
  | jobError
deriving Repr, DecidableEq

/-- The events posted by the worker over its message port. -/
inductive WorkerEvent
  | pageProgress (jobId url : String) (depth : Nat) (status : PageStatus)
      (reason : Option String)
  | pageResult (jobId url : String) (depth : Nat) (headings : List String)
      (rawText : String) (chunks : List TextChunk)
  | jobStatus (jobId : String) (status : JobLifecycle)
      (processedPages discoveredPages : Nat) (error : Option String)
  | workerError (message : String)
deriving Repr, DecidableEq

/-- `const host = this.safeHostname(normalized); if (!host || ...)`: the
host used for the domain check — `none` both when parsing fails and when the
hostname is the empty string (both are falsy). -/
def effectiveHost (env : Env) (normalized : String) : Option String :=
  match safeHostname env normalized with
  | none => none
  | some h => if h = "" then none else some h

/-- `isDomainAllowed`. -/
def isDomainAllowed (host : String) (js : JobState) : Bool :=
  js.config.followExternal || js.hostAllowList.contains host

/-- `enqueueLink`: drop (no state change, no event) on a cancelled/absent
job, an invalid URL, an already-visited normalized URL, excessive depth, an
exhausted page budget, or a missing/disallowed host; otherwise mark visited,
bump the discovered counter, emit `queued`, and push the task onto the
queue. -/
def enqueueLink (env : Env) (st : Option JobState) (href : String) (depth : Nat) :
    Option JobState × List WorkerEvent :=
  match st with
  | none => (none, [])
  | some js =>
    if js.cancelled then (some js, [])
    else
      match normalizeUrl env href with
      | none => (some js, [])
      | some normalized =>
        if js.visited.contains normalized then (some js, [])
        else if js.config.maxDepth < depth then (some js, [])
        else if js.config.maxPages ≤ js.processedPages then (some js, [])
        else
          match effectiveHost env normalized with
          | none => (some js, [])
          | some host =>
            if !isDomainAllowed host js then (some js, [])
            else
              (some { js with
                      visited := js.visited ++ [normalized]
                      discoveredPages := js.discoveredPages + 1
                      pending := js.pending ++ [(normalized, depth)] },
               [.pageProgress js.config.jobId normalized depth .queued none])

/-- Enqueue a list of candidate links in order, accumulating events. -/
def enqueueLinks (env : Env) (st : Option JobState) (hrefs : List String)
    (depth : Nat) : Option JobState × List WorkerEvent :=
  hrefs.foldl
    (fun acc href =>
      let next := enqueueLink env acc.1 href depth
      (next.1, acc.2 ++ next.2))
    (st, [])

/-- The host allow-list built by `startJob`: the configured domains when
non-empty, else the hostnames of the seed URLs, with null/empty entries
filtered out (`.filter(Boolean)`). -/
def buildHostAllowList (env : Env) (config : IngestionJobConfig) : List String :=
  let base : List (Option String) :=
    match config.allowedDomains with
    | some ds => if ds.isEmpty then config.seedUrls.map (safeHostname env) else ds.map some
    | none => config.seedUrls.map (safeHostname env)
  base.filterMap (fun o =>
    match o with
    | none => none
    | some h => if h = "" then none else some h)

/-- `startJob`: reject with `job_already_running` while a non-cancelled job
state exists, else create fresh state, emit `running`, and enqueue the
seeds at depth 0. -/
def startJob (env : Env) (st : Option JobState) (config : IngestionJobConfig) :
    Option JobState × List WorkerEvent :=
  match st with
  | some js =>
    if !js.cancelled then
      (some js,
       [.jobStatus config.jobId .jobError js.processedPages js.discoveredPages
          (some "job_already_running")])
    else startJobFresh env config
  | none => startJobFresh env config
where
  startJobFresh (env : Env) (config : IngestionJobConfig) :
      Option JobState × List WorkerEvent :=
    let js : JobState :=
      { config := config, pending := [], visited := [], processedPages := 0,
        discoveredPages := 0, cancelled := false,
        hostAllowList := buildHostAllowList env config }
    let seeded := enqueueLinks env (some js) config.seedUrls 0
    (seeded.1, .jobStatus config.jobId .running 0 0 none :: seeded.2)

/-- `cancelCurrentJob`: no-op without an active job or on a job-id mismatch;
otherwise set the cancelled flag, clear the queue, emit a terminal
`cancelled` status with the reason, and drop the job state. -/
def cancelCurrentJob (st : Option JobState) (reason : String)
    (jobId : Option String) : Option JobState × List WorkerEvent :=
  match st with
  | none => (none, [])
  | some js =>
    match jobId with
    | some j =>
      if js.config.jobId ≠ j then (some js, [])
      else
        (none,
         [.jobStatus js.config.jobId .cancelled js.processedPages js.discoveredPages
            (some reason)])
    | none =>
      (none,
       [.jobStatus js.config.jobId .cancelled js.processedPages js.discoveredPages
          (some reason)])

/-- A dispatched `processUrl` call whose fetch is in flight.  `config` is
the destructuring `const { config } = this.jobState` at entry, captured
before the suspension. -/
structure InflightTask where
  url : String
  depth : Nat
  config : IngestionJobConfig
deriving Repr, DecidableEq, Inhabited

/-- The worker's world: the job-state slot plus the in-flight fetches of the
task pool (`queue.pending`). -/
structure World where
  jobState : Option JobState
  inflight : List InflightTask
deriving Repr, DecidableEq, Inhabited

/-- The result of `fetchAndParse`. -/
structure FetchResult where
  text : String
  headings : List String
  links : List String
deriving Repr, DecidableEq, Inhabited

/-- `checkJobCompletion` (with its settle delay abstracted away, as §9 of
the spec directs): emit `completed` and drop the state when the queue has no
pending and no in-flight work on a live, non-cancelled job. -/
def checkJobCompletion (w : World) : World × List WorkerEvent :=
  match w.jobState with
  | none => (w, [])
  | some js =>
    if js.cancelled then (w, [])
    else if js.pending.isEmpty && w.inflight.isEmpty then
      ({ w with jobState := none },
       [.jobStatus js.config.jobId .completed js.processedPages js.discoveredPages none])
    else (w, [])

/-- The synchronous prefix of `processUrl`: pop the first queued task, bail
out silently on an absent/cancelled job, else emit `fetching` and record the
fetch as in flight. -/
def startTask (w : World) : Option (World × List WorkerEvent) :=
  match w.jobState with
  | none => none
  | some js =>
    match js.pending with
    | [] => none
    | (url, depth) :: rest =>
      let js' := { js with pending := rest }
      if js'.cancelled then (some ({ w with jobState := some js' }, []))
      else
        some
          ({ jobState := some js'
             inflight := w.inflight ++ [{ url := url, depth := depth, config := js'.config }] },
           [.pageProgress js'.config.jobId url depth .fetching none])

/-- The JavaScript TypeError message raised by
`this.jobState.processedPages += 1` when the job state has become `null`
while the fetch was in flight. -/
def nullStateReason : String :=
  "Cannot read properties of null (reading 'processedPages')"

/-- The `catch` branch of `processUrl`: report the page as `failed` with the
error's message, and — only if a job state is still present — count the page
as processed, emit a `running` status, and re-check completion. -/
def processUrlCatch (w : World) (task : InflightTask) (reason : String) :
    World × List WorkerEvent :=
  let failEv := WorkerEvent.pageProgress task.config.jobId task.url task.depth .failed (some reason)
  match w.jobState with
  | none => (w, [failEv])
  | some js =>
    let js' := { js with processedPages := js.processedPages + 1 }
    let w' : World := { w with jobState := some js' }
    let checked := checkJobCompletion w'
    (checked.1,
     failEv ::
       .jobStatus task.config.jobId .running js'.processedPages js'.discoveredPages none ::
       checked.2)

/-- The continuation of `processUrl` after `await this.fetchAndParse(...)`
settles (the task has already been removed from `inflight`).  `fetchOutcome`
is the fetch/parse result or the thrown error; `indexOutcome` is the result
of `indexChunks` (embedding + vector-store insertion). -/
def finishTask (env : Env) (w : World) (task : InflightTask)
    (fetchOutcome : Except String FetchResult)
    (indexOutcome : Except String Unit) : World × List WorkerEvent :=
  let jid := task.config.jobId
  match fetchOutcome with
  | .error reason => processUrlCatch w task reason
  | .ok result =>
    if result.text = "" then
      let skipEv := WorkerEvent.pageProgress jid task.url task.depth .skipped (some "empty-content")
      match w.jobState with
      | some js =>
        ({ w with jobState := some { js with processedPages := js.processedPages + 1 } },
         [skipEv])
      | none =>
        -- `this.jobState.processedPages += 1` dereferences null: the TypeError
        -- lands in the catch branch, whose own job-state guard then fails.
        (w, skipEv :: (processUrlCatch w task nullStateReason).2)
    else
      let chunks := chunkText result.text
        { jobId := jid, url := task.url, headingPath := none
          tokensPerChunk := task.config.tokensPerChunk
          overlapTokens := task.config.overlapTokens
          minTokensPerChunk := task.config.minTokensPerChunk }
      let embeddingEv := WorkerEvent.pageProgress jid task.url task.depth .embedding none
      match indexOutcome with
      | .error reason =>
        (w,
         [embeddingEv,
          .pageProgress jid task.url task.depth .failed (some ("Embedding failed: " ++ reason)),
          .workerError ("Failed to embed chunks for " ++ task.url ++ ": " ++ reason)])
      | .ok _ =>
        let evs :=
          [embeddingEv,
           .pageProgress jid task.url task.depth .indexed none,
           .pageResult jid task.url task.depth result.headings result.text chunks,
           .pageProgress jid task.url task.depth .parsed none]
        match w.jobState with
        | none => (w, evs)
        | some currentState =>
          let cs := { currentState with processedPages := currentState.processedPages + 1 }
          let evs := evs ++
            [.jobStatus jid .running cs.processedPages cs.discoveredPages none]
          if cs.cancelled then ({ w with jobState := some cs }, evs)
          else if task.config.maxPages ≤ cs.processedPages then
            ({ w with jobState := none },
             evs ++ [.jobStatus jid .completed cs.processedPages cs.discoveredPages none])
          else
            let linksDone := enqueueLinks env (some cs) result.links (task.depth + 1)
            let w' : World := { w with jobState := linksDone.1 }
            let checked := checkJobCompletion w'
            (checked.1, evs ++ linksDone.2 ++ checked.2)

/-! ## Event classifiers and concrete fixtures

Small helpers for stating trace properties, plus the concrete inputs used by
counterexamples and witnesses. -/

/-- Is this event a `job-status` message? -/
def isJobStatusEvent : WorkerEvent → Bool
  | .jobStatus _ _ _ _ _ => true
  | _ => false

/-- Is this event a `queued` page-progress message? -/
def isQueuedProgress : WorkerEvent → Bool
  | .pageProgress _ _ _ .queued _ => true
  | _ => false

/-- Is this event a `page-result` message? -/
def isPageResultEvent : WorkerEvent → Bool
  | .pageResult _ _ _ _ _ _ => true
  | _ => false

/-- Is this query event a `failed` status? -/
def isFailedQueryStatus : WorkerQueryEvent → Bool
  | .statusFailed _ => true
  | _ => false

instance : Inhabited WorkerEvent := ⟨.workerError ""⟩

/-- A URL model for the concrete crawl fixtures: two pages on
`example.com`, one on `other.org`, and a `mailto:` URL, which WHATWG URL
parses successfully with an empty hostname. -/
def crawlEnv : Env :=
  ⟨fun s =>
    if s = "https://example.com/" then some { normalized := "https://example.com/", hostname := "example.com" }
    else if s = "https://example.com/a" then some { normalized := "https://example.com/a", hostname := "example.com" }
    else if s = "https://other.org/" then some { normalized := "https://other.org/", hostname := "other.org" }
    else if s = "mailto:team@example.com" then some { normalized := "mailto:team@example.com", hostname := "" }
    else none⟩

/-- A crawl configuration staying on `example.com`. -/
def crawlCfg : IngestionJobConfig :=
  { jobId := "job1", seedUrls := ["https://example.com/"], maxDepth := 1,
    maxPages := 5, followExternal := false }

/-- The same configuration with `followExternal := true`. -/
def crawlCfgExt : IngestionJobConfig :=
  { crawlCfg with followExternal := true }

/-- A fresh active job state for `crawlCfgExt`. -/
def activeJs : JobState :=
  { config := crawlCfgExt, pending := [], visited := [], processedPages := 0,
    discoveredPages := 0, cancelled := false, hostAllowList := ["example.com"] }

/-- The event trace of the cancellation scenario: start a job, dispatch the
seed fetch, cancel while the fetch is in flight, then let the fetch finish
successfully. -/
def cancelTraceEvents : List WorkerEvent :=
  let s1 := startJob crawlEnv none crawlCfg
  let w1 : World := { jobState := s1.1, inflight := [] }
  match startTask w1 with
  | some (w2, e2) =>
    let c := cancelCurrentJob w2.jobState "cancelled-by-extension" none
    let w3 : World := { jobState := c.1, inflight := [] }
    let f := finishTask crawlEnv w3
      { url := "https://example.com/", depth := 0, config := crawlCfg }
      (.ok { text := "Welcome to the docs", headings := ["H1"], links := [] })
      (.ok ())
    s1.2 ++ e2 ++ c.2 ++ f.2
  | none => []

/-- Capabilities whose plain retrieval succeeds with one chunk and whose
reranker is healthy; the extraction stages return `null` results. -/
def retrievalItemFix : RetrievalItem :=
  { chunk := { id := "c1", text := "Install with npm install docpilot" }
    score := 9 / 10, url := "https://example.com/a", headings := ["Install"] }

def basicResultFix : RetrievalResult :=
  { chunks := [retrievalItemFix], totalFound := 1, queryTime := 1 }

def capsOk : Caps :=
  { retrieveFn := fun _ => .ok basicResultFix
    rerankFn := fun _ _ => .ok [{ index := 0, score := 1 / 2 }]
    extractAnswerFn := fun _ _ => .ok none
    summarizeFn := fun _ => .ok none
    extractCodeBlocksFn := fun _ => [] }

/-- The same capabilities with a throwing reranker. -/
def capsRerankFail : Caps :=
  { capsOk with rerankFn := fun _ _ => .error "rerank model crashed" }

/-- A plain query fixture. -/
def queryFix : RetrievalQuery :=
  { text := "how to install", limit := none, jobIds := none, threshold := none }

/-- The query record `handleQuery` derives from `queryPayloadFix`. -/
def queryFixLim : RetrievalQuery :=
  { text := "how to install", limit := some 5, jobIds := none, threshold := none }

/-- The intelligent chunks produced by `capsOk` for `queryFix`. -/
def icsFix : List IntelligentChunkResult :=
  [{ chunkId := "c1", url := "https://example.com/a", headings := ["Install"],
     text := "Install with npm install docpilot", score := 9 / 10,
     rerankScore := some (1 / 2), answer := none, answerConfidence := none,
     summary := none, codeExamples := some [] }]

def queryPayloadFix : QueryPayload :=
  { query := "how to install", jobId := none, limit := none }

/-- A one-document store over ℝ for the vector-search witness. -/
noncomputable def docFix : VectorDocument :=
  { id := "j1_c1", jobId := "j1", url := "https://example.com/a", chunkIndex := 0,
    text := "Install with npm", headings := [], vector := [1] }

/-- Chunking options with a large overlap relative to the window
(`tokensPerChunk = 5`, `overlapTokens = 4`, `minTokensPerChunk = 1`,
so stride 1). -/
def chunkOptsOv : ChunkingOptions :=
  { jobId := "j", url := "u", tokensPerChunk := some 5, overlapTokens := some 4,
    minTokensPerChunk := some 1 }

/-- Chunking options with window 2, overlap 1, minimum 1. -/
def chunkOptsW : ChunkingOptions :=
  { jobId := "j", url := "u", tokensPerChunk := some 2, overlapTokens := some 1,
    minTokensPerChunk := some 1 }

/-! # Theorems -/

/-! ## Shared list lemmas -/

theorem zip_self_map (a : List ℝ) :
    (a.zip a).map (fun p => p.1 * p.2) = a.map (fun x => x * x) := by
  induction a with
  | nil => rfl
  | cons x rest ih => simp [List.zip_cons_cons, ih]

theorem sum_sq_nonneg (a : List ℝ) : 0 ≤ (a.map (fun x => x * x)).sum := by
  apply List.sum_nonneg
  intro y hy
  rcases List.mem_map.1 hy with ⟨x, -, rfl⟩
  exact mul_self_nonneg x

theorem sum_sq_pos (a : List ℝ) (x : ℝ) (hx : x ∈ a) (hx0 : x ≠ 0) :
    0 < (a.map (fun x => x * x)).sum := by
  rcases List.append_of_mem hx with ⟨s, t, rfl⟩
  have hs := sum_sq_nonneg s
  have ht := sum_sq_nonneg t
  have hxx : 0 < x * x := mul_self_pos.mpr hx0
  simp only [List.map_append, List.map_cons, List.sum_append, List.sum_cons]
  linarith

theorem sum_sq_zero (a : List ℝ) (h : ∀ x ∈ a, x = 0) :
    (a.map (fun x => x * x)).sum = 0 := by
  apply List.sum_eq_zero
  intro y hy
  rcases List.mem_map.1 hy with ⟨x, hx, rfl⟩
  simp [h x hx]

/-! ## C9 — a second `start` is rejected and leaves the running job intact -/

/-- C9: while a non-cancelled job state exists, `startJob` emits a single
`job_already_running` error status (no `running` transition) and returns the
running job's state entirely unchanged. -/
theorem startJob_rejects_second (env : Env) (js : JobState)
    (config : IngestionJobConfig) (hactive : js.cancelled = false) :
    startJob env (some js) config =
      (some js,
       [.jobStatus config.jobId .jobError js.processedPages js.discoveredPages
          (some "job_already_running")]) := by
  simp [startJob, hactive]

theorem startJob_rejects_second_witness :
    activeJs.cancelled = false ∧
    startJob crawlEnv (some activeJs) crawlCfg =
      (some activeJs,
       [.jobStatus crawlCfg.jobId .jobError activeJs.processedPages
          activeJs.discoveredPages (some "job_already_running")]) :=
  ⟨rfl, startJob_rejects_second crawlEnv activeJs crawlCfg rfl⟩

/-! ## C10 — degraded reranking preserves the original order -/

theorem fallbackRerank_getD (texts : List String) (k : Nat) (hk : k < texts.length) :
    (fallbackRerank texts).getD k default
      = { index := k, score := 1 - (k : ℚ) * (1 / 100) } := by
  simp [fallbackRerank, List.getD_eq_getElem?_getD, List.getElem?_range, hk]

/-- C10: whenever reranking is disabled, the reranker model is unavailable,
or the scoring computation throws, `rerank` returns the fallback list: one
entry per input index in original order, with strictly decreasing synthetic
scores `1.0 - 0.01 * index`, so a subsequent `take limit` selects the first
`limit` candidates in their original (embedding-similarity) order. -/
theorem rerank_degraded (enableReranking rerankerAvailable : Bool)
    (attempt : Except String (List RerankResult)) (texts : List String)
    (hdeg : enableReranking = false ∨ rerankerAvailable = false ∨
      ∃ e, attempt = .error e) :
    rerankLLM enableReranking rerankerAvailable attempt texts = fallbackRerank texts ∧
    (fallbackRerank texts).length = texts.length ∧
    (∀ k, k < texts.length →
      (fallbackRerank texts).getD k default
        = { index := k, score := 1 - (k : ℚ) * (1 / 100) }) ∧
    (∀ k, k + 1 < texts.length →
      ((fallbackRerank texts).getD (k + 1) default).score
        < ((fallbackRerank texts).getD k default).score) ∧
    (∀ limit, ((fallbackRerank texts).take limit).map (fun r => r.index)
        = (List.range texts.length).take limit) := by
  refine ⟨?_, ?_, fallbackRerank_getD texts, ?_, ?_⟩
  · rcases hdeg with h | h | ⟨e, rfl⟩
    · simp [rerankLLM, h]
    · simp [rerankLLM, h]
    · by_cases hempty : texts.isEmpty <;> simp [rerankLLM, hempty]
  · simp [fallbackRerank]
  · intro k hk
    rw [fallbackRerank_getD texts k (by omega), fallbackRerank_getD texts (k + 1) hk]
    push_cast
    linarith
  · intro limit
    simp only [fallbackRerank, ← List.map_take, List.map_map]
    have hid : ((fun r : RerankResult => r.index) ∘
        fun index => ({ index := index, score := 1 - (index : ℚ) * (1 / 100) } : RerankResult))
        = fun k => k := rfl
    rw [hid, List.map_id']

theorem rerank_degraded_witness :
    ((Except.error "boom" : Except String (List RerankResult)) = .error "boom") ∧
    rerankLLM true true (.error "boom") ["t0", "t1"] = fallbackRerank ["t0", "t1"] :=
  ⟨rfl, (rerank_degraded true true (.error "boom") ["t0", "t1"]
    (Or.inr (Or.inr ⟨"boom", rfl⟩))).1⟩

/-! ## C8 — cosine similarity: self-similarity, zero vectors, dimension
mismatch -/

/-- C8: over exact arithmetic, `cosineSimilarity v v = 1` for any nonzero
`v`; a zero-magnitude operand yields exactly `0`; equal-dimension inputs
always produce a well-defined value; and a dimension mismatch fails fast
with an error. -/
theorem cosineSimilarity_spec (a b : List ℝ) :
    ((∃ x ∈ a, x ≠ 0) → cosineSimilarity a a = .ok 1) ∧
    (a.length = b.length → ((∀ x ∈ a, x = 0) ∨ (∀ x ∈ b, x = 0)) →
      cosineSimilarity a b = .ok 0) ∧
    (a.length = b.length → ∃ r, cosineSimilarity a b = .ok r) ∧
    (a.length ≠ b.length →
      cosineSimilarity a b = .error "Vector dimensions must match") := by
  refine ⟨?_, ?_, ?_, ?_⟩
  · rintro ⟨x, hx, hx0⟩
    have hS : 0 < (a.map (fun x => x * x)).sum := sum_sq_pos a x hx hx0
    have hmag : Real.sqrt ((a.map (fun x => x * x)).sum)
        * Real.sqrt ((a.map (fun x => x * x)).sum) = (a.map (fun x => x * x)).sum :=
      Real.mul_self_sqrt hS.le
    simp only [cosineSimilarity, zip_self_map, hmag, ne_eq, not_true_eq_false,
      if_false]
    rw [if_neg hS.ne', div_self hS.ne']
  · intro hlen hzero
    have hmag : Real.sqrt ((a.map (fun x => x * x)).sum)
        * Real.sqrt ((b.map (fun x => x * x)).sum) = 0 := by
      rcases hzero with h | h
      · rw [sum_sq_zero a h, Real.sqrt_zero, zero_mul]
      · rw [sum_sq_zero b h, Real.sqrt_zero, mul_zero]
    simp only [cosineSimilarity]
    rw [if_neg (by simp [hlen]), if_pos hmag]
  · intro hlen
    simp only [cosineSimilarity]
    rw [if_neg (by simp [hlen])]
    by_cases hmag : Real.sqrt ((a.map (fun x => x * x)).sum)
        * Real.sqrt ((b.map (fun x => x * x)).sum) = 0
    · rw [if_pos hmag]; exact ⟨0, rfl⟩
    · rw [if_neg hmag]; exact ⟨_, rfl⟩
  · intro hlen
    simp only [cosineSimilarity]
    rw [if_pos hlen]

theorem cosineSimilarity_spec_witness :
    (∃ x ∈ ([1, 0] : List ℝ), x ≠ 0) ∧
    cosineSimilarity ([1, 0] : List ℝ) ([1, 0] : List ℝ) = .ok 1 :=
  ⟨⟨1, by norm_num⟩,
   (cosineSimilarity_spec ([1, 0] : List ℝ) ([1, 0] : List ℝ)).1 ⟨1, by norm_num⟩⟩

/-! ## C4 — `enqueueLink` drop conditions

The claim's list of drop conditions is incomplete: `enqueueLink` also drops
a link whose normalized URL has a missing or empty hostname
(`const host = this.safeHostname(normalized); if (!host || ...)`), even with
`followExternal = true`.  A `mailto:` link is a concrete such URL: WHATWG
URL parses it successfully (so it is not "invalid") with hostname `""`. -/

/-- C4 counterexample: with `followExternal = true`, a fresh job state, an
unvisited `mailto:` link at an admissible depth and with page budget left —
none of the claim's five drop conditions holds — the link is nevertheless
dropped (state unchanged, nothing queued, no event). -/
theorem enqueueLink_claim_counterexample :
    enqueueLink crawlEnv (some activeJs) "mailto:team@example.com" 1
      = (some activeJs, []) ∧
    normalizeUrl crawlEnv "mailto:team@example.com" = some "mailto:team@example.com" ∧
    activeJs.visited = [] ∧
    1 ≤ activeJs.config.maxDepth ∧
    activeJs.processedPages < activeJs.config.maxPages ∧
    activeJs.config.followExternal = true := by
  refine ⟨?_, by decide, by decide, by decide, by decide, by decide⟩
  decide

/-- Acceptance branch of `enqueueLink`: every check passes. -/
theorem enqueueLink_accepts (env : Env) (js : JobState) (href : String)
    (depth : Nat) (n h : String)
    (hactive : js.cancelled = false)
    (hn : normalizeUrl env href = some n)
    (hv : js.visited.contains n = false)
    (hd : depth ≤ js.config.maxDepth)
    (hp : js.processedPages < js.config.maxPages)
    (hh : effectiveHost env n = some h)
    (hdom : js.config.followExternal = true ∨ js.hostAllowList.contains h = true) :
    enqueueLink env (some js) href depth =
      (some { js with
              visited := js.visited ++ [n]
              discoveredPages := js.discoveredPages + 1
              pending := js.pending ++ [(n, depth)] },
       [.pageProgress js.config.jobId n depth .queued none]) := by
  have hdom' : isDomainAllowed h js = true := by
    rcases hdom with h1 | h1
    · simp [isDomainAllowed, h1]
    · simp only [isDomainAllowed, h1, Bool.or_true]
  simp only [enqueueLink, hactive, hn, hv, hh, hdom', Bool.false_eq_true, if_false,
    Bool.not_true]
  rw [if_neg (by omega : ¬js.config.maxDepth < depth),
    if_neg (by omega : ¬js.config.maxPages ≤ js.processedPages)]

/-- Drop branch of `enqueueLink`: some check fails. -/
theorem enqueueLink_drops (env : Env) (js : JobState) (href : String)
    (depth : Nat)
    (hactive : js.cancelled = false)
    (hcond : normalizeUrl env href = none ∨
      ∃ n, normalizeUrl env href = some n ∧
        (js.visited.contains n = true ∨
         js.config.maxDepth < depth ∨
         js.config.maxPages ≤ js.processedPages ∨
         effectiveHost env n = none ∨
         ∃ h, effectiveHost env n = some h ∧ js.config.followExternal = false ∧
           js.hostAllowList.contains h = false)) :
    enqueueLink env (some js) href depth = (some js, []) := by
  rcases hcond with hn | ⟨n, hn, hcond⟩
  · simp [enqueueLink, hactive, hn]
  rcases hcond with hv | hd | hp | hh | ⟨h, hh, hfe, hal⟩
  · simp only [enqueueLink, hactive, hn, Bool.false_eq_true, if_false]
    split_ifs <;> simp_all
  · simp only [enqueueLink, hactive, hn, Bool.false_eq_true, if_false]
    split_ifs <;> first | rfl | omega
  · simp only [enqueueLink, hactive, hn, Bool.false_eq_true, if_false]
    split_ifs <;> first | rfl | omega
  · simp only [enqueueLink, hactive, hn, Bool.false_eq_true, if_false]
    split_ifs <;> first | rfl | simp [hh]
  · have hdom : isDomainAllowed h js = false := by
      simp only [isDomainAllowed, hfe, Bool.false_or]
      exact hal
    simp only [enqueueLink, hactive, hn, Bool.false_eq_true, if_false]
    split_ifs <;> first | rfl | simp [hh, hdom]

/-- C4 (amended): on an active job state, `enqueueLink` drops the link
(state unchanged, no event) exactly when the URL is invalid, or already
visited in normalized form, or too deep, or the page budget is exhausted,
or the normalized URL's host is missing/empty, or the host is outside the
allow-list while `followExternal` is false; otherwise it marks the
normalized URL visited, increments `discoveredPages` by one, emits a
`queued` progress event, and submits the task to the queue.  In particular
`processedPages ≥ maxPages` freezes the state, and with
`followExternal = true` a link with a present host is enqueued. -/
theorem enqueueLink_spec (env : Env) (js : JobState) (href : String) (depth : Nat)
    (hactive : js.cancelled = false) :
    (enqueueLink env (some js) href depth = (some js, []) ↔
      (normalizeUrl env href = none ∨
        ∃ n, normalizeUrl env href = some n ∧
          (js.visited.contains n = true ∨
           js.config.maxDepth < depth ∨
           js.config.maxPages ≤ js.processedPages ∨
           effectiveHost env n = none ∨
           ∃ h, effectiveHost env n = some h ∧ js.config.followExternal = false ∧
             js.hostAllowList.contains h = false))) ∧
    (∀ n h, normalizeUrl env href = some n →
      js.visited.contains n = false →
      depth ≤ js.config.maxDepth →
      js.processedPages < js.config.maxPages →
      effectiveHost env n = some h →
      (js.config.followExternal = true ∨ js.hostAllowList.contains h = true) →
      enqueueLink env (some js) href depth =
        (some { js with
                visited := js.visited ++ [n]
                discoveredPages := js.discoveredPages + 1
                pending := js.pending ++ [(n, depth)] },
         [.pageProgress js.config.jobId n depth .queued none])) ∧
    (js.config.maxPages ≤ js.processedPages →
      enqueueLink env (some js) href depth = (some js, [])) := by
  refine ⟨⟨?_, enqueueLink_drops env js href depth hactive⟩,
    ?_, ?_⟩
  · intro hdrop
    by_contra hnot
    push_neg at hnot
    obtain ⟨hn0, hrest⟩ := hnot
    rcases Option.ne_none_iff_exists'.1 hn0 with ⟨n, hn⟩
    obtain ⟨hv, hd, hp, hh0, hdom⟩ := hrest n hn
    rcases Option.ne_none_iff_exists'.1 hh0 with ⟨h, hh⟩
    have hdom' : js.config.followExternal = true ∨ js.hostAllowList.contains h = true := by
      rcases Bool.eq_false_or_eq_true (js.hostAllowList.contains h) with h2 | h2
      · exact Or.inr h2
      · rcases Bool.eq_false_or_eq_true js.config.followExternal with h1 | h1
        · exact Or.inl h1
        · exact absurd h2 (by simpa using hdom h hh h1)
    have heq := enqueueLink_accepts env js href depth n h hactive hn
      (by simpa using hv) (by omega) (by omega) hh hdom'
    rw [heq] at hdrop
    simp at hdrop
  · intro n h hn hv hd hp hh hdom
    exact enqueueLink_accepts env js href depth n h hactive hn hv hd hp hh hdom
  · intro hp
    exact enqueueLink_drops env js href depth hactive
      (by
        by_cases hn : normalizeUrl env href = none
        · exact Or.inl hn
        · rcases Option.ne_none_iff_exists'.1 hn with ⟨n, hn'⟩
          exact Or.inr ⟨n, hn', Or.inr (Or.inr (Or.inl hp))⟩)

/-! ## C5 — transient page errors

Fetch/parse errors are caught, reported as `failed`, and counted via
`processedPages += 1` in the catch branch.  An embedding/indexing failure is
also caught and reported, but the branch returns early *without* touching
`processedPages`, so the claim's "still increments processedPages by one"
fails for embedding failures. -/

/-- C5 counterexample: on an active job, a page whose fetch and parse
succeed but whose embedding/indexing fails is reported as `failed` (plus a
worker error) — yet the job state is completely unchanged: `processedPages`
stays `0` instead of incrementing to `1`. -/
theorem processUrl_embedding_failure_counterexample :
    finishTask crawlEnv { jobState := some activeJs, inflight := [] }
      { url := "https://example.com/a", depth := 0, config := crawlCfgExt }
      (.ok { text := "Install the docs first", headings := [], links := [] })
      (.error "model crashed")
    = ({ jobState := some activeJs, inflight := [] },
       [.pageProgress "job1" "https://example.com/a" 0 .embedding none,
        .pageProgress "job1" "https://example.com/a" 0 .failed
          (some "Embedding failed: model crashed"),
        .workerError "Failed to embed chunks for https://example.com/a: model crashed"]) ∧
    activeJs.processedPages = 0 := by
  constructor
  · decide
  · decide

/-- C5 (amended): on a live job state, a fetch/parse error is caught and
reported as a `failed` progress event with the error's reason, still
increments `processedPages` by one, and emits no `cancelled`/`error` status
(the job continues, possibly completing normally); an embedding failure is
caught and reported as `failed` plus a worker error, and the job state is
left unchanged — in particular `processedPages` is *not* incremented. -/
theorem processUrl_transient_error_spec (env : Env) (w : World)
    (task : InflightTask) (js : JobState) (hjs : w.jobState = some js) :
    (∀ reason idxOutcome,
      (finishTask env w task (.error reason) idxOutcome).2.head? =
        some (.pageProgress task.config.jobId task.url task.depth .failed (some reason)) ∧
      (∀ js', (finishTask env w task (.error reason) idxOutcome).1.jobState = some js' →
        js'.processedPages = js.processedPages + 1) ∧
      (∀ j s p d e,
        WorkerEvent.jobStatus j s p d e ∈ (finishTask env w task (.error reason) idxOutcome).2 →
        s = .running ∨ s = .completed)) ∧
    (∀ fetched reason, fetched.text ≠ "" →
      finishTask env w task (.ok fetched) (.error reason) =
        (w, [.pageProgress task.config.jobId task.url task.depth .embedding none,
             .pageProgress task.config.jobId task.url task.depth .failed
               (some ("Embedding failed: " ++ reason)),
             .workerError ("Failed to embed chunks for " ++ task.url ++ ": " ++ reason)])) := by
  obtain ⟨jsw, infl⟩ := w
  simp only at hjs
  subst hjs
  constructor
  · intro reason idxOutcome
    refine ⟨rfl, ?_, ?_⟩
    · intro js' hjs'
      simp only [finishTask, processUrlCatch, checkJobCompletion] at hjs'
      split_ifs at hjs' with h1 h2 <;> simp only [Option.some.injEq] at hjs' <;>
        (subst hjs'; rfl)
    · intro j s p d e hmem
      simp only [finishTask, processUrlCatch, checkJobCompletion] at hmem
      split_ifs at hmem with h1 h2 <;>
        simp only [List.mem_cons, List.not_mem_nil, or_false,
          WorkerEvent.jobStatus.injEq] at hmem <;>
        tauto
  · intro fetched reason hne
    simp only [finishTask]
    rw [if_neg hne]

/-- Witness for `processUrl_transient_error_spec` at a concrete active
world. -/
theorem processUrl_transient_error_spec_witness :
    (({ jobState := some activeJs, inflight := [] } : World).jobState = some activeJs) ∧
    ((finishTask crawlEnv { jobState := some activeJs, inflight := [] }
        { url := "https://example.com/a", depth := 0, config := crawlCfgExt }
        (.error "http_404") (.ok ())).2.head? =
      some (.pageProgress "job1" "https://example.com/a" 0 .failed (some "http_404"))) := by
  refine ⟨rfl, ?_⟩
  have h := (processUrl_transient_error_spec crawlEnv
    { jobState := some activeJs, inflight := [] }
    { url := "https://example.com/a", depth := 0, config := crawlCfgExt }
    activeJs rfl).1 "http_404" (.ok ())
  exact h.1

/-! ## C6 — cancellation and in-flight fetches

The claim asserts that after cancellation no page-result event is emitted.
In the code, the continuation of an in-flight fetch emits `embedding`,
`indexed`, `page-result` and `parsed` *before* its first job-state check
(`const currentState = this.jobState; if (!currentState) return;`), so a
fetch that completes after cancellation still emits a page-result.  What
does hold: the continuation never mutates the (gone) job state, enqueues no
links, and emits no further job-status events. -/

/-- C6 counterexample: an explicit trace — start a job, dispatch the seed
fetch, cancel while it is in flight, let the fetch complete successfully.
The terminal `cancelled` status is at index 3, and a `page-result` event for
the same job follows at index 6. -/
theorem cancelled_job_page_result_counterexample :
    cancelTraceEvents.getD 3 default =
      .jobStatus "job1" .cancelled 0 1 (some "cancelled-by-extension") ∧
    isPageResultEvent (cancelTraceEvents.getD 6 default) = true ∧
    cancelTraceEvents.length = 8 := by
  refine ⟨by decide, by decide, by decide⟩

/-- C6 (amended): once cancellation has taken effect (the job-state slot is
empty), the continuation of any in-flight fetch leaves the job state empty,
emits no job-status event and no `queued` progress event — but it may still
emit page-progress and page-result events, so cancelled jobs are *not*
free of page-result emissions. -/
theorem finishTask_after_cancel (env : Env) (w : World) (task : InflightTask)
    (fetchOutcome : Except String FetchResult) (indexOutcome : Except String Unit)
    (hnone : w.jobState = none) :
    (finishTask env w task fetchOutcome indexOutcome).1.jobState = none ∧
    ∀ e ∈ (finishTask env w task fetchOutcome indexOutcome).2,
      isJobStatusEvent e = false ∧ isQueuedProgress e = false := by
  obtain ⟨jsw, infl⟩ := w
  simp only at hnone
  subst hnone
  cases fetchOutcome with
  | error reason =>
    refine ⟨rfl, ?_⟩
    intro e he
    have h2 : (finishTask env ⟨none, infl⟩ task (Except.error reason) indexOutcome).2 =
        [.pageProgress task.config.jobId task.url task.depth .failed (some reason)] := rfl
    rw [h2] at he
    simp only [List.mem_singleton] at he
    subst he
    exact ⟨rfl, rfl⟩
  | ok result =>
    by_cases htext : result.text = ""
    · have h2 : finishTask env ⟨none, infl⟩ task (Except.ok result) indexOutcome =
          (⟨none, infl⟩,
           [.pageProgress task.config.jobId task.url task.depth .skipped (some "empty-content"),
            .pageProgress task.config.jobId task.url task.depth .failed (some nullStateReason)]) := by
        simp only [finishTask, processUrlCatch]
        rw [if_pos htext]
      rw [h2]
      refine ⟨rfl, ?_⟩
      intro e he
      simp only [List.mem_cons, List.not_mem_nil, or_false] at he
      rcases he with rfl | rfl <;> exact ⟨rfl, rfl⟩
    · cases indexOutcome with
      | error reason =>
        have h2 : finishTask env ⟨none, infl⟩ task (Except.ok result) (Except.error reason) =
            (⟨none, infl⟩,
             [.pageProgress task.config.jobId task.url task.depth .embedding none,
              .pageProgress task.config.jobId task.url task.depth .failed
                (some ("Embedding failed: " ++ reason)),
              .workerError ("Failed to embed chunks for " ++ task.url ++ ": " ++ reason)]) := by
          simp only [finishTask]
          rw [if_neg htext]
        rw [h2]
        refine ⟨rfl, ?_⟩
        intro e he
        simp only [List.mem_cons, List.not_mem_nil, or_false] at he
        rcases he with rfl | rfl | rfl <;> exact ⟨rfl, rfl⟩
      | ok u =>
        have h2 : finishTask env ⟨none, infl⟩ task (Except.ok result) (Except.ok u) =
            (⟨none, infl⟩,
             [.pageProgress task.config.jobId task.url task.depth .embedding none,
              .pageProgress task.config.jobId task.url task.depth .indexed none,
              .pageResult task.config.jobId task.url task.depth result.headings result.text
                (chunkText result.text
                  { jobId := task.config.jobId, url := task.url, headingPath := none
                    tokensPerChunk := task.config.tokensPerChunk
                    overlapTokens := task.config.overlapTokens
                    minTokensPerChunk := task.config.minTokensPerChunk }),
              .pageProgress task.config.jobId task.url task.depth .parsed none]) := by
          simp only [finishTask]
          rw [if_neg htext]
        rw [h2]
        refine ⟨rfl, ?_⟩
        intro e he
        simp only [List.mem_cons, List.not_mem_nil, or_false] at he
        rcases he with rfl | rfl | rfl | rfl <;> exact ⟨rfl, rfl⟩

/-- Witness for `finishTask_after_cancel` on the concrete cancelled world. -/
theorem finishTask_after_cancel_witness :
    (({ jobState := none, inflight := [] } : World).jobState = none) ∧
    (finishTask crawlEnv { jobState := none, inflight := [] }
      { url := "https://example.com/", depth := 0, config := crawlCfg }
      (.ok { text := "Welcome to the docs", headings := ["H1"], links := [] })
      (.ok ())).1.jobState = none :=
  ⟨rfl,
   (finishTask_after_cancel crawlEnv { jobState := none, inflight := [] }
     { url := "https://example.com/", depth := 0, config := crawlCfg }
     (.ok { text := "Welcome to the docs", headings := ["H1"], links := [] })
     (.ok ()) rfl).1⟩

theorem enqueueLink_spec_witness :
    activeJs.cancelled = false ∧
    (enqueueLink crawlEnv (some activeJs) "https://other.org/" 1 =
      (some { activeJs with
              visited := ["https://other.org/"]
              discoveredPages := 1
              pending := [("https://other.org/", 1)] },
       [.pageProgress "job1" "https://other.org/" 1 .queued none])) := by
  refine ⟨rfl, ?_⟩
  have h := (enqueueLink_spec crawlEnv activeJs "https://other.org/" 1 rfl).2.1
    "https://other.org/" "other.org" (by decide) (by decide) (by decide)
    (by decide) (by decide) (Or.inl (by decide))
  simpa using h

/-! ## Cache map lemmas -/

theorem lookup_mapSet_self (m : Cache) (k : String) (v : CacheEntry) :
    List.lookup k (mapSet m k v) = some v := by
  induction m with
  | nil => simp [mapSet, List.lookup]
  | cons p rest ih =>
    obtain ⟨k', v'⟩ := p
    by_cases h : k' = k
    · subst h
      simp [mapSet, List.lookup]
    · simp only [mapSet, if_neg h, List.lookup]
      rw [show (k == k') = false from beq_eq_false_iff_ne.mpr (fun hh => h hh.symm)]
      exact ih

theorem lookup_mapDelete_ne (m : Cache) (k k' : String) (h : k ≠ k') :
    List.lookup k (mapDelete m k') = List.lookup k m := by
  induction m with
  | nil => rfl
  | cons p rest ih =>
    obtain ⟨k₀, v₀⟩ := p
    by_cases h0 : k₀ = k'
    · subst h0
      have hbe : (k == k₀) = false := beq_eq_false_iff_ne.mpr h
      simp [mapDelete, List.lookup, hbe]
    · simp only [mapDelete, if_neg h0, List.lookup]
      cases hbe : k == k₀ <;> simp [hbe, ih]

/-- Any `intelligentRetrieve` call that misses the cache recomputes the
pipeline (the instrumentation bit is `true`). -/
theorem intelligentRetrieve_ran_of_miss (caps : Caps) (tS tE : ℤ) (cache : Cache)
    (q : RetrievalQuery)
    (h : (getCached tS cache (generateCacheKey q.text (jsOrNat q.limit 5) q.jobIds)).1
      = none) :
    (intelligentRetrieve caps tS tE cache q).2.2 = true := by
  unfold intelligentRetrieve
  rcases hg : getCached tS cache (generateCacheKey q.text (jsOrNat q.limit 5) q.jobIds)
    with ⟨o, c⟩
  rw [hg] at h
  simp only at h
  subst h
  simp only [hg]
  cases hp : intelligentPipeline caps tS tE c q (jsOrNat q.limit 5)
      (generateCacheKey q.text (jsOrNat q.limit 5) q.jobIds) with
  | ok r =>
    obtain ⟨res, c₂⟩ := r
    simp only [hp]
  | error e =>
    simp only [hp]
    cases hf : caps.retrieveFn q with
    | error e2 => simp only [hf]
    | ok b => simp only [hf]

/-! ## C1 — cache hit within the TTL, expiry on read -/

/-- C1: after a cache-miss call whose pipeline succeeds (non-empty corpus,
rerank and extraction deliver), a second call with the same normalized
query, same effective limit and same sorted job-id scope within the TTL
returns the cached chunk payload unchanged with `fromCache = true`,
increments the entry's hit counter to 1, and does not re-run the pipeline;
if instead the entry's age exceeds the TTL, the read deletes the entry and
the call re-runs the pipeline. -/
theorem intelligentRetrieve_cache_spec
    (caps : Caps) (cache₀ : Cache) (q1 q2 : RetrievalQuery)
    (t1s t1e t2s t2e : ℤ)
    (basic : RetrievalResult) (rr : List RerankResult)
    (ics : List IntelligentChunkResult)
    (htext : jsTrimStr (jsToLower q1.text) = jsTrimStr (jsToLower q2.text))
    (hlimit : jsOrNat q1.limit 5 = jsOrNat q2.limit 5)
    (hjobs : sortedJobIdKey q1.jobIds = sortedJobIdKey q2.jobIds)
    (hmiss : List.lookup (generateCacheKey q1.text (jsOrNat q1.limit 5) q1.jobIds) cache₀
      = none)
    (hbasic : caps.retrieveFn { q1 with limit := some (max (jsOrNat q1.limit 5 * 4) 20) }
      = .ok basic)
    (hne : basic.chunks.isEmpty = false)
    (hrr : caps.rerankFn q1.text (basic.chunks.map (fun c => c.chunk.text)) = .ok rr)
    (hidx : (rr.take (jsOrNat q1.limit 5)).all
      (fun r => r.index < basic.chunks.length) = true)
    (hmapM : (rr.take (jsOrNat q1.limit 5)).mapM (fun r =>
        mkIntelligentChunk caps q1.text (basic.chunks.getD r.index default) r.score)
      = .ok ics) :
    intelligentRetrieve caps t1s t1e cache₀ q1 =
      (.ok { chunks := postFilterChunks ics
             totalFound := (postFilterChunks ics).length
             queryTime := t1e - t1s
             llmProcessingTime := t1e - t1s
             fromCache := some false },
       setCache t1e cache₀ (generateCacheKey q1.text (jsOrNat q1.limit 5) q1.jobIds)
         { chunks := postFilterChunks ics
           totalFound := (postFilterChunks ics).length
           queryTime := t1e - t1s
           llmProcessingTime := t1e - t1s
           fromCache := some false },
       true) ∧
    (∀ result c1,
      intelligentRetrieve caps t1s t1e cache₀ q1 = (.ok result, c1, true) →
      (t2s - t1e ≤ cacheTTL →
        intelligentRetrieve caps t2s t2e c1 q2 =
          (.ok { result with fromCache := some true },
           mapSet c1 (generateCacheKey q1.text (jsOrNat q1.limit 5) q1.jobIds)
             { result := result, timestamp := t1e, hits := 1 },
           false) ∧
        List.lookup (generateCacheKey q1.text (jsOrNat q1.limit 5) q1.jobIds)
          (mapSet c1 (generateCacheKey q1.text (jsOrNat q1.limit 5) q1.jobIds)
            { result := result, timestamp := t1e, hits := 1 })
          = some { result := result, timestamp := t1e, hits := 1 }) ∧
      (cacheTTL < t2s - t1e →
        getCached t2s c1 (generateCacheKey q1.text (jsOrNat q1.limit 5) q1.jobIds) =
          (none, mapDelete c1 (generateCacheKey q1.text (jsOrNat q1.limit 5) q1.jobIds)) ∧
        (intelligentRetrieve caps t2s t2e c1 q2).2.2 = true)) := by
  have hkey : generateCacheKey q2.text (jsOrNat q2.limit 5) q2.jobIds
      = generateCacheKey q1.text (jsOrNat q1.limit 5) q1.jobIds := by
    unfold generateCacheKey
    rw [htext, hlimit, hjobs]
  have hlook : ∀ res : IntelligentRetrievalResult,
      List.lookup (generateCacheKey q1.text (jsOrNat q1.limit 5) q1.jobIds)
        (setCache t1e cache₀ (generateCacheKey q1.text (jsOrNat q1.limit 5) q1.jobIds) res)
      = some { result := res, timestamp := t1e, hits := 0 } := by
    intro res
    unfold setCache
    exact lookup_mapSet_self _ _ _
  have hfirst : intelligentRetrieve caps t1s t1e cache₀ q1 =
      (.ok { chunks := postFilterChunks ics
             totalFound := (postFilterChunks ics).length
             queryTime := t1e - t1s
             llmProcessingTime := t1e - t1s
             fromCache := some false },
       setCache t1e cache₀ (generateCacheKey q1.text (jsOrNat q1.limit 5) q1.jobIds)
         { chunks := postFilterChunks ics
           totalFound := (postFilterChunks ics).length
           queryTime := t1e - t1s
           llmProcessingTime := t1e - t1s
           fromCache := some false },
       true) := by
    unfold intelligentRetrieve
    simp only [getCached, hmiss]
    unfold intelligentPipeline
    simp only [hbasic, hne, Bool.false_eq_true, if_false, hrr, hidx, if_true, hmapM]
  have hgetF : ∀ res : IntelligentRetrievalResult, t2s - t1e ≤ cacheTTL →
      getCached t2s
        (setCache t1e cache₀ (generateCacheKey q1.text (jsOrNat q1.limit 5) q1.jobIds) res)
        (generateCacheKey q1.text (jsOrNat q1.limit 5) q1.jobIds)
      = (some res,
         mapSet (setCache t1e cache₀
             (generateCacheKey q1.text (jsOrNat q1.limit 5) q1.jobIds) res)
           (generateCacheKey q1.text (jsOrNat q1.limit 5) q1.jobIds)
           { result := res, timestamp := t1e, hits := 1 }) := by
    intro res hres
    unfold getCached
    simp only [hlook res]
    rw [if_neg (by omega)]
  have hgetS : ∀ res : IntelligentRetrievalResult, cacheTTL < t2s - t1e →
      getCached t2s
        (setCache t1e cache₀ (generateCacheKey q1.text (jsOrNat q1.limit 5) q1.jobIds) res)
        (generateCacheKey q1.text (jsOrNat q1.limit 5) q1.jobIds)
      = (none,
         mapDelete (setCache t1e cache₀
             (generateCacheKey q1.text (jsOrNat q1.limit 5) q1.jobIds) res)
           (generateCacheKey q1.text (jsOrNat q1.limit 5) q1.jobIds)) := by
    intro res hres
    unfold getCached
    simp only [hlook res]
    rw [if_pos (by omega)]
  refine ⟨hfirst, ?_⟩
  intro result c1 hcall
  rw [hfirst] at hcall
  simp only [Prod.mk.injEq, Except.ok.injEq, and_true] at hcall
  obtain ⟨hres, hc1⟩ := hcall
  subst hres
  subst hc1
  constructor
  · intro hfresh
    refine ⟨?_, lookup_mapSet_self _ _ _⟩
    unfold intelligentRetrieve
    simp only [hkey, hgetF _ hfresh]
  · intro hstale
    refine ⟨hgetS _ hstale, ?_⟩
    apply intelligentRetrieve_ran_of_miss
    rw [hkey, hgetS _ hstale]

/-- Witness for `intelligentRetrieve_cache_spec` with the concrete
capabilities `capsOk`: the second identical call within the TTL does not
recompute the pipeline. -/
theorem intelligentRetrieve_cache_spec_witness :
    (List.lookup (generateCacheKey "how to install" 5 none) ([] : Cache) = none) ∧
    ((2 : ℤ) - 1 ≤ cacheTTL) ∧
    (intelligentRetrieve capsOk 2 3
      ((intelligentRetrieve capsOk 0 1 ([] : Cache) queryFix).2.1) queryFix).2.2
      = false := by
  have H := intelligentRetrieve_cache_spec capsOk [] queryFix queryFix 0 1 2 3
    basicResultFix [{ index := 0, score := 1 / 2 }] icsFix rfl rfl rfl
    (by decide) rfl (by decide) rfl (by decide) rfl
  refine ⟨by decide, by decide, ?_⟩
  have h2 := (H.2 _ _ H.1).1 (by decide)
  have hc1 : (intelligentRetrieve capsOk 0 1 ([] : Cache) queryFix).2.1 =
      setCache 1 [] (generateCacheKey queryFix.text (jsOrNat queryFix.limit 5)
        queryFix.jobIds)
        { chunks := postFilterChunks icsFix
          totalFound := (postFilterChunks icsFix).length
          queryTime := (1 : ℤ) - 0
          llmProcessingTime := (1 : ℤ) - 0
          fromCache := some false } := by
    rw [H.1]
  rw [hc1, h2.1]

/-! ## C2 — pipeline degradation on a rerank/extraction exception

The claim's fallback behavior is real, but its "the query is surfaced as
failed via status events" part is not: `intelligentRetrieve` absorbs the
exception internally and returns normally, so `handleQuery` emits
`completed` (never `failed`) for exactly the calls that return fallback
data; a `failed` status is emitted only when `intelligentRetrieve` itself
throws — in which case no data is returned. -/

/-- C2 counterexample: with a throwing reranker and a non-empty corpus, the
query returns a non-empty fallback chunk list while its status-event trace
ends in `completed` and contains no `failed` status at all — refuting
"returns data AND is surfaced as failed". -/
theorem fallback_no_failed_status_counterexample :
    handleQuery capsRerankFail 0 1 ([] : Cache) queryPayloadFix
      = ([],
         [.statusStarted, .statusRetrieving 1, .statusScoring 1,
          .intelligentQueryResult [reshapeBasic retrievalItemFix] 1 1 1 none,
          .statusCompleted 1]) ∧
    (∀ e ∈ (handleQuery capsRerankFail 0 1 ([] : Cache) queryPayloadFix).2,
      isFailedQueryStatus e = false) ∧
    [reshapeBasic retrievalItemFix] ≠ ([] : List IntelligentChunkResult) := by
  refine ⟨rfl, by decide, by decide⟩

/-- C2 (amended): if the rerank stage throws on a cache miss and the plain
retrieval succeeds, `intelligentRetrieve` does not propagate the exception:
it returns the plain `retrieve` result for the same query reshaped into the
intelligent-result schema (non-empty whenever the plain result is),
with `llmProcessingTime` covering the failed attempt, without caching — and
the query is surfaced as *completed* (not failed) via status events. -/
theorem intelligentRetrieve_degrades
    (caps : Caps) (tS tE : ℤ) (cache : Cache) (payload : QueryPayload)
    (q : RetrievalQuery) (basic fb : RetrievalResult) (err : String)
    (hq : q = { text := payload.query
                limit := some (jsOrNat payload.limit 5)
                jobIds := match payload.jobId with
                          | some j => if j = "" then none else some [j]
                          | none => none
                threshold := none })
    (hmiss : List.lookup (generateCacheKey q.text (jsOrNat q.limit 5) q.jobIds) cache
      = none)
    (hbasic : caps.retrieveFn { q with limit := some (max (jsOrNat q.limit 5 * 4) 20) }
      = .ok basic)
    (hne : basic.chunks.isEmpty = false)
    (hrr : caps.rerankFn q.text (basic.chunks.map (fun c => c.chunk.text)) = .error err)
    (hfb : caps.retrieveFn q = .ok fb) :
    intelligentRetrieve caps tS tE cache q =
      (.ok { chunks := fb.chunks.map reshapeBasic
             totalFound := fb.totalFound
             queryTime := tE - tS
             llmProcessingTime := tE - tS
             fromCache := none },
       cache, true) ∧
    (fb.chunks ≠ [] → fb.chunks.map reshapeBasic ≠ []) ∧
    handleQuery caps tS tE cache payload =
      (cache,
       [.statusStarted, .statusRetrieving fb.totalFound,
        .statusScoring (fb.chunks.map reshapeBasic).length,
        .intelligentQueryResult (fb.chunks.map reshapeBasic) fb.totalFound (tE - tS)
          (tE - tS) none,
        .statusCompleted fb.totalFound]) := by
  have hpipe : intelligentPipeline caps tS tE cache q (jsOrNat q.limit 5)
      (generateCacheKey q.text (jsOrNat q.limit 5) q.jobIds) = .error err := by
    unfold intelligentPipeline
    simp only [hbasic, hne, Bool.false_eq_true, if_false, hrr]
  have hmain : intelligentRetrieve caps tS tE cache q =
      (.ok { chunks := fb.chunks.map reshapeBasic
             totalFound := fb.totalFound
             queryTime := tE - tS
             llmProcessingTime := tE - tS
             fromCache := none },
       cache, true) := by
    unfold intelligentRetrieve
    simp only [getCached, hmiss, hpipe, hfb]
  refine ⟨hmain, ?_, ?_⟩
  · intro h hcontra
    exact h (by simpa using hcontra)
  · unfold handleQuery
    rw [← hq]
    simp only [hmain]

/-- Witness for `intelligentRetrieve_degrades` at the concrete failing
reranker. -/
theorem intelligentRetrieve_degrades_witness :
    (capsRerankFail.rerankFn queryFixLim.text
      (basicResultFix.chunks.map (fun c => c.chunk.text)) = .error "rerank model crashed") ∧
    intelligentRetrieve capsRerankFail 0 1 ([] : Cache) queryFixLim =
      (.ok { chunks := basicResultFix.chunks.map reshapeBasic
             totalFound := basicResultFix.totalFound
             queryTime := (1 : ℤ) - 0
             llmProcessingTime := (1 : ℤ) - 0
             fromCache := none },
       [], true) :=
  ⟨rfl,
   (intelligentRetrieve_degrades capsRerankFail 0 1 [] queryPayloadFix queryFixLim
     basicResultFix basicResultFix "rerank model crashed" (by decide) (by decide)
     rfl (by decide) rfl rfl).1⟩

/-! ## C7 — vector search: filter, descending order, stability, limit -/

theorem searchLe_trans (a b c : RankedResult)
    (hab : searchLe a b = true) (hbc : searchLe b c = true) : searchLe a c = true := by
  simp only [searchLe, decide_eq_true_eq] at *
  exact le_trans hbc hab

theorem searchLe_total (a b : RankedResult) : (searchLe a b || searchLe b a) = true := by
  simp only [searchLe, Bool.or_eq_true, decide_eq_true_eq]
  exact le_total b.score a.score

theorem enumFrom_pairwise_fst_lt (l : List α) :
    ∀ n, (List.enumFrom n l).Pairwise (fun a b => a.1 < b.1) := by
  induction l with
  | nil => intro n; simp
  | cons x rest ih =>
    intro n
    simp only [List.enumFrom]
    refine List.Pairwise.cons ?_ (ih (n + 1))
    intro p hp
    obtain ⟨i, a⟩ := p
    have := (List.mem_enumFrom hp).1
    simpa using this

theorem candidateDocs_pairwise_fst (store : List VectorDocument)
    (jobIds : Option (List String)) :
    (candidateDocs store jobIds).Pairwise (fun a b => a.1 < b.1) := by
  have henum : store.enum.Pairwise (fun a b => a.1 < b.1) := enumFrom_pairwise_fst_lt store 0
  unfold candidateDocs
  cases jobIds with
  | none => exact henum
  | some ids =>
    by_cases h : ids.isEmpty
    · simpa [h] using henum
    · simpa [h] using henum.filter _

/-- `scoreCandidates` keeps the candidates in order (as witnessed by the
index/document projection) and scores each with `cosineSimilarity`. -/
theorem scoreCandidates_spec (queryVector : List ℝ) :
    ∀ (cands : List (Nat × VectorDocument)) (scored : List RankedResult),
      scoreCandidates queryVector cands = .ok scored →
      scored.map (fun r => (r.idx, r.document)) = cands ∧
      ∀ r ∈ scored, cosineSimilarity queryVector r.document.vector = .ok r.score := by
  intro cands
  induction cands with
  | nil =>
    intro scored h
    simp only [scoreCandidates, Except.ok.injEq] at h
    subst h
    exact ⟨rfl, by simp⟩
  | cons p rest ih =>
    intro scored h
    obtain ⟨i, d⟩ := p
    simp only [scoreCandidates] at h
    cases hcos : cosineSimilarity queryVector d.vector with
    | error e => rw [hcos] at h; simp at h
    | ok s =>
      rw [hcos] at h
      cases hrest : scoreCandidates queryVector rest with
      | error e => rw [hrest] at h; simp at h
      | ok others =>
        rw [hrest] at h
        simp only [Except.ok.injEq] at h
        subst h
        obtain ⟨h1, h2⟩ := ih others hrest
        refine ⟨by simp [h1], ?_⟩
        intro r hr
        rcases List.mem_cons.1 hr with rfl | hr'
        · exact hcos
        · exact h2 r hr'

/-- Stability of the stable sort used by `search`: among tied scores the
original insertion order is preserved. -/
theorem mergeSort_tie_stable (scored : List RankedResult)
    (hinc : scored.Pairwise (fun a b => a.idx < b.idx)) :
    (scored.mergeSort searchLe).Pairwise
      (fun a b => a.score = b.score → a.idx < b.idx) := by
  have hperm : (scored.mergeSort searchLe).Perm scored :=
    List.mergeSort_perm scored searchLe
  have hneq : (scored.mergeSort searchLe).Pairwise (fun a b => a.idx ≠ b.idx) :=
    (List.Perm.pairwise_iff (fun h => h.symm) hperm).mpr
      (hinc.imp (fun h => Nat.ne_of_lt h))
  rw [List.pairwise_iff_get]
  intro i j hij htie
  by_contra hnot
  have hxyne : ((scored.mergeSort searchLe).get i).idx
      ≠ ((scored.mergeSort searchLe).get j).idx :=
    List.pairwise_iff_get.1 hneq i j hij
  have hyx : ((scored.mergeSort searchLe).get j).idx
      < ((scored.mergeSort searchLe).get i).idx := by
    rcases Nat.lt_or_ge ((scored.mergeSort searchLe).get i).idx
      ((scored.mergeSort searchLe).get j).idx with hc | hc
    · exact absurd hc hnot
    · omega
  obtain ⟨pi, hpi⟩ := List.get_of_mem
    (List.mem_mergeSort.1 (List.get_mem (scored.mergeSort searchLe) i.1 i.2))
  obtain ⟨pj, hpj⟩ := List.get_of_mem
    (List.mem_mergeSort.1 (List.get_mem (scored.mergeSort searchLe) j.1 j.2))
  simp only [Fin.eta] at hpi hpj
  have hpij : pj < pi := by
    rcases lt_trichotomy pi pj with hc | hc | hc
    · have := List.pairwise_iff_get.1 hinc pi pj hc
      rw [hpi, hpj] at this
      omega
    · subst hc
      rw [hpi] at hpj
      exact absurd (congrArg RankedResult.idx hpj) hxyne
    · exact hc
  have hsub : List.Sublist [scored.get pj, scored.get pi] scored := by
    have hpw : List.Pairwise (fun a b : Fin scored.length => (a : ℕ) < (b : ℕ)) [pj, pi] := by
      simp [hpij]
    simpa using List.map_get_sublist hpw
  rw [hpi, hpj] at hsub
  have hpw2 : List.Pairwise (fun a b => searchLe a b = true)
      [(scored.mergeSort searchLe).get j, (scored.mergeSort searchLe).get i] := by
    refine List.pairwise_cons.2 ⟨?_, by simp⟩
    intro b hb
    rcases List.mem_singleton.1 hb with rfl
    simp only [searchLe, decide_eq_true_eq]
    have h3 := htie
    simp only [List.get_eq_getElem] at h3
    simp [h3]
  have hsub2 : List.Sublist
      [(scored.mergeSort searchLe).get j, (scored.mergeSort searchLe).get i]
      (scored.mergeSort searchLe) :=
    List.sublist_mergeSort searchLe_trans searchLe_total hpw2 hsub
  obtain ⟨is, his, hispw⟩ := List.sublist_eq_map_get hsub2
  have hlen : is.length = 2 := by
    have := congrArg List.length his
    simpa using this.symm
  rcases is with _ | ⟨p, _ | ⟨q, _ | ⟨r3, is4⟩⟩⟩ <;> simp at hlen
  simp only [List.map_cons, List.map_nil, List.cons.injEq, and_true] at his
  obtain ⟨hisy, hisx⟩ := his
  have hinj : ∀ (a b : Fin (scored.mergeSort searchLe).length),
      ((scored.mergeSort searchLe).get a).idx = ((scored.mergeSort searchLe).get b).idx →
      a = b := by
    intro a b hab
    by_contra hne
    rcases Fin.lt_or_lt_of_ne hne with hlt | hlt
    · exact List.pairwise_iff_get.1 hneq a b hlt hab
    · exact List.pairwise_iff_get.1 hneq b a hlt hab.symm
  have hq : q = i := hinj q i (by rw [← hisx])
  have hp : p = j := hinj p j (by rw [← hisy])
  have hpq : (p : ℕ) < (q : ℕ) := by
    have := List.pairwise_iff_get.1 hispw ⟨0, by simp⟩ ⟨1, by simp⟩ (by simp)
    simpa using this
  rw [hp, hq] at hpq
  have hij2 : (i : ℕ) < (j : ℕ) := hij
  omega

/-- C7: for every store, query vector, limit and optional job filter, a
successful `search` computes the cosine similarity of every returned
candidate, restricts to the filtered candidates, never returns a document
outside the filter, returns at most `limit` results sorted by descending
score, and orders equal scores by original insertion order. -/
theorem search_spec (store : List VectorDocument) (queryVector : List ℝ)
    (limit : Nat) (jobIds : Option (List String)) (res : List RankedResult)
    (h : searchRanked store queryVector limit jobIds = .ok res) :
    res.length ≤ limit ∧
    res.Pairwise (fun a b => b.score ≤ a.score) ∧
    res.Pairwise (fun a b => a.score = b.score → a.idx < b.idx) ∧
    (∀ r ∈ res, (r.idx, r.document) ∈ candidateDocs store jobIds ∧
      cosineSimilarity queryVector r.document.vector = .ok r.score) ∧
    (∀ r ∈ res, ∀ ids, jobIds = some ids → ids.isEmpty = false →
      ids.contains r.document.jobId = true) ∧
    search store queryVector limit jobIds =
      .ok (res.map (fun r => { document := r.document, score := r.score })) := by
  obtain ⟨scored, hscored, hres⟩ :
      ∃ scored, scoreCandidates queryVector (candidateDocs store jobIds) = .ok scored ∧
        res = (scored.mergeSort searchLe).take limit := by
    unfold searchRanked at h
    cases hs : scoreCandidates queryVector (candidateDocs store jobIds) with
    | error e => rw [hs] at h; simp [Except.map] at h
    | ok scored =>
      rw [hs] at h
      simp only [Except.map, Except.ok.injEq] at h
      exact ⟨scored, rfl, h.symm⟩
  obtain ⟨hmap, hcos⟩ := scoreCandidates_spec queryVector _ scored hscored
  have hinc : scored.Pairwise (fun a b => a.idx < b.idx) := by
    have hpw := candidateDocs_pairwise_fst store jobIds
    rw [← hmap] at hpw
    exact (@List.pairwise_map RankedResult (Nat × VectorDocument)
      (fun r => (r.idx, r.document)) (fun a b => a.1 < b.1) scored).1 hpw
  have hmemres : ∀ r ∈ res, r ∈ scored := by
    intro r hr
    rw [hres] at hr
    exact List.mem_mergeSort.1 (List.mem_of_mem_take hr)
  refine ⟨?_, ?_, ?_, ?_, ?_, ?_⟩
  · rw [hres]
    exact List.length_take_le _ _
  · rw [hres]
    refine List.Pairwise.sublist (List.take_sublist _ _) ?_
    exact (List.sorted_mergeSort searchLe_trans searchLe_total scored).imp
      (fun hab => by simpa [searchLe, decide_eq_true_eq] using hab)
  · rw [hres]
    exact List.Pairwise.sublist (List.take_sublist _ _) (mergeSort_tie_stable scored hinc)
  · intro r hr
    refine ⟨?_, hcos r (hmemres r hr)⟩
    rw [← hmap]
    exact List.mem_map_of_mem _ (hmemres r hr)
  · intro r hr ids hids hne
    have hmem : (r.idx, r.document) ∈ candidateDocs store jobIds := by
      rw [← hmap]
      exact List.mem_map_of_mem _ (hmemres r hr)
    rw [hids] at hmem
    simp only [candidateDocs, hne, Bool.false_eq_true, if_false] at hmem
    exact (List.mem_filter.1 hmem).2
  · unfold search
    rw [h]
    rfl

/-- Concrete evaluation of `cosineSimilarity` on the one-component vectors
of the search witness. -/
theorem cosineSimilarity_single_one : cosineSimilarity [(1 : ℝ)] [(1 : ℝ)] = .ok 1 := by
  unfold cosineSimilarity
  rw [if_neg (by simp)]
  simp [Real.sqrt_one]

/-- Concrete evaluation of `searchRanked` on a one-document store. -/
theorem searchRanked_single_eval :
    searchRanked [docFix] [(1 : ℝ)] 1 none
      = .ok [{ idx := 0, document := docFix, score := 1 }] := by
  have hc : candidateDocs [docFix] none = [(0, docFix)] := rfl
  have hv : docFix.vector = [(1 : ℝ)] := rfl
  have hs : scoreCandidates [(1 : ℝ)] [(0, docFix)]
      = .ok [{ idx := 0, document := docFix, score := 1 }] := by
    unfold scoreCandidates
    rw [hv, cosineSimilarity_single_one]
    unfold scoreCandidates
    rfl
  unfold searchRanked
  rw [hc, hs]
  simp [Except.map, List.mergeSort_singleton]

theorem search_spec_witness :
    searchRanked [docFix] [(1 : ℝ)] 1 none
      = .ok [{ idx := 0, document := docFix, score := 1 }] ∧
    ([{ idx := 0, document := docFix, score := 1 }] : List RankedResult).length ≤ 1 :=
  ⟨searchRanked_single_eval,
   (search_spec [docFix] [(1 : ℝ)] 1 none _ searchRanked_single_eval).1⟩

/-! ## C3 — chunking: empty input, minimum sizes, overlap invariant

Basic facts about the tail merge and the canonical chunk shapes. -/

theorem extendChunk_tokens (prev : TextChunk) (u : List String) :
    (extendChunk prev u).tokens = prev.tokens ++ u := by
  unfold extendChunk
  by_cases h : u.isEmpty
  · rw [if_pos h]
    rw [List.isEmpty_iff.1 h, List.append_nil]
  · rw [if_neg h]

theorem extendChunk_wordCount (prev : TextChunk) (u : List String) :
    prev.wordCount ≤ (extendChunk prev u).wordCount := by
  unfold extendChunk
  by_cases h : u.isEmpty
  · rw [if_pos h]
  · rw [if_neg h]
    simp

theorem mergeTailChunk_nil (l : List TextChunk) : mergeTailChunk l [] = l := by
  induction l with
  | nil => rfl
  | cons c rest ih =>
    cases rest with
    | nil => simp [mergeTailChunk, extendChunk]
    | cons d r2 =>
      rw [show mergeTailChunk (c :: d :: r2) [] = c :: mergeTailChunk (d :: r2) [] from rfl,
        ih]

theorem mergeTailChunk_length (l : List TextChunk) (u : List String) :
    (mergeTailChunk l u).length = l.length := by
  induction l with
  | nil => rfl
  | cons c rest ih =>
    cases rest with
    | nil => rfl
    | cons d r2 =>
      rw [show mergeTailChunk (c :: d :: r2) u = c :: mergeTailChunk (d :: r2) u from rfl]
      simp only [List.length_cons]
      rw [ih]
      simp

theorem mergeTailChunk_getD_front (l : List TextChunk) (u : List String) (k : Nat)
    (dflt : TextChunk) (hk : k + 1 < l.length) :
    (mergeTailChunk l u).getD k dflt = l.getD k dflt := by
  induction l generalizing k with
  | nil => rfl
  | cons c rest ih =>
    cases rest with
    | nil => simp at hk
    | cons d r2 =>
      rw [show mergeTailChunk (c :: d :: r2) u = c :: mergeTailChunk (d :: r2) u from rfl]
      cases k with
      | zero => rfl
      | succ k2 =>
        simp only [List.getD_cons_succ]
        exact ih k2 (by simpa using hk)

theorem mergeTailChunk_getD_last (l : List TextChunk) (u : List String)
    (dflt : TextChunk) (hne : l ≠ []) :
    (mergeTailChunk l u).getD (l.length - 1) dflt
      = extendChunk (l.getD (l.length - 1) dflt) u := by
  induction l with
  | nil => exact absurd rfl hne
  | cons c rest ih =>
    cases rest with
    | nil => rfl
    | cons d r2 =>
      rw [show mergeTailChunk (c :: d :: r2) u = c :: mergeTailChunk (d :: r2) u from rfl]
      have hlen : (c :: d :: r2).length - 1 = ((d :: r2).length - 1) + 1 := by
        simp
      rw [hlen]
      simp only [List.getD_cons_succ]
      exact ih (by simp)

theorem stdChunks_length (jobId url : String) (hp : List String) (toks : List String)
    (win step m : Nat) : (stdChunks jobId url hp toks win step m).length = m := by
  simp [stdChunks]

theorem stdChunks_getD (jobId url : String) (hp : List String) (toks : List String)
    (win step m k : Nat) (dflt : TextChunk) (hk : k < m) :
    (stdChunks jobId url hp toks win step m).getD k dflt
      = mkChunk jobId url hp k (chunkWindow toks win step k) := by
  simp [stdChunks, List.getD_eq_getElem?_getD, List.getElem?_map, List.getElem?_range, hk]

theorem stdChunks_ne_nil (jobId url : String) (hp : List String) (toks : List String)
    (win step m : Nat) (hm : 1 ≤ m) :
    stdChunks jobId url hp toks win step m ≠ [] := by
  intro h
  have := congrArg List.length h
  rw [stdChunks_length] at this
  simp at this
  omega

theorem stdChunks_succ (jobId url : String) (hp : List String) (toks : List String)
    (win step m : Nat) :
    stdChunks jobId url hp toks win step m
        ++ [mkChunk jobId url hp m (chunkWindow toks win step m)]
      = stdChunks jobId url hp toks win step (m + 1) := by
  simp [stdChunks, List.range_succ]

theorem chunkLoop_exit (jobId url : String) (hp : List String) (toks : List String)
    (win ov minTok : Nat) (fuel start order : Nat) (acc : List TextChunk)
    (h : toks.length ≤ start) :
    chunkLoop jobId url hp toks win ov minTok fuel start order acc = acc := by
  cases fuel with
  | zero => rfl
  | succ fuel2 =>
    simp only [chunkLoop]
    rw [if_neg (by omega)]

/-- The shape of the chunk list built by the loop of `chunkText`: starting
from a canonical prefix, the loop produces a canonical chunk list of some
length `m`, with the `uniqueSlice` of an undersized tail possibly appended
to the last chunk, and every canonical window except the first holding at
least `minTok` tokens. -/
theorem chunkLoop_shape (jobId url : String) (hp : List String) (toks : List String)
    (win ov minTok : Nat) (fuel : Nat) :
    ∀ (start order : Nat),
      toks.length ≤ fuel + start →
      start = order * max (win - ov) 1 →
      (∀ k, 1 ≤ k → k < order →
        minTok ≤ (chunkWindow toks win (max (win - ov) 1) k).length) →
      ∃ m extra, order ≤ m ∧
        chunkLoop jobId url hp toks win ov minTok fuel start order
            (stdChunks jobId url hp toks win (max (win - ov) 1) order)
          = mergeTailChunk (stdChunks jobId url hp toks win (max (win - ov) 1) m) extra ∧
        (∀ k, 1 ≤ k → k < m →
          minTok ≤ (chunkWindow toks win (max (win - ov) 1) k).length) := by
  induction fuel with
  | zero =>
    intro start order h1 h2 h3
    refine ⟨order, [], le_refl _, ?_, h3⟩
    rw [chunkLoop_exit _ _ _ _ _ _ _ _ _ _ _ (by omega), mergeTailChunk_nil]
  | succ fuel ih =>
    intro start order h1 h2 h3
    by_cases hlt : start < toks.length
    · simp only [chunkLoop]
      rw [if_pos hlt]
      have hslice : (toks.drop start).take win
          = chunkWindow toks win (max (win - ov) 1) order := by
        rw [chunkWindow, h2]
      by_cases hcond : ((toks.drop start).take win).length < minTok ∧
          stdChunks jobId url hp toks win (max (win - ov) 1) order ≠ []
      · rw [if_pos hcond]
        refine ⟨order, ((toks.drop start).take win).drop
          (min ov ((toks.drop start).take win).length), le_refl _, rfl, h3⟩
      · rw [if_neg hcond]
        rw [hslice, stdChunks_succ]
        have hstep1 : 1 ≤ max (win - ov) 1 := le_max_right _ _
        have h3' : ∀ k, 1 ≤ k → k < order + 1 →
            minTok ≤ (chunkWindow toks win (max (win - ov) 1) k).length := by
          intro k hk1 hk2
          rcases Nat.lt_or_ge k order with hk | hk
          · exact h3 k hk1 hk
          · have hke : k = order := by omega
            subst hke
            rcases not_and_or.1 hcond with hlen | hne'
            · rw [← hslice]
              omega
            · exact absurd (stdChunks_ne_nil jobId url hp toks win _ k hk1)
                (by simpa using hne')
        obtain ⟨m, extra, hm, heq, hmin⟩ := ih (start + max (win - ov) 1) (order + 1)
          (by omega) (by rw [h2]; ring) h3'
        exact ⟨m, extra, by omega, heq, hmin⟩
    · refine ⟨order, [], le_refl _, ?_, h3⟩
      rw [chunkLoop_exit _ _ _ _ _ _ _ _ _ _ _ (by omega), mergeTailChunk_nil]

theorem collapseWsAux_true_of_ws (l : List Char) (h : ∀ c ∈ l, jsWhitespace c = true) :
    collapseWsAux true l = [] := by
  induction l with
  | nil => rfl
  | cons c rest ih =>
    simp only [collapseWsAux]
    rw [if_pos (h c (by simp))]
    exact ih (fun c hc => h c (by simp [hc]))

theorem collapseWs_of_ws (l : List Char) (h : ∀ c ∈ l, jsWhitespace c = true) :
    collapseWs l = [] ∨ collapseWs l = [' '] := by
  cases l with
  | nil => exact Or.inl rfl
  | cons c rest =>
    right
    simp only [collapseWs, collapseWsAux]
    rw [if_pos (h c (by simp))]
    rw [collapseWsAux_true_of_ws rest (fun c hc => h c (by simp [hc]))]
    simp

theorem convertNewlines_ws (l : List Char) (h : ∀ c ∈ l, jsWhitespace c = true) :
    ∀ c ∈ convertNewlines l, jsWhitespace c = true := by
  induction l using convertNewlines.induct with
  | case1 => simp [convertNewlines]
  | case2 rest ih =>
    simp only [convertNewlines, List.mem_cons]
    rintro c (rfl | hc)
    · decide
    · exact ih (fun c hc => h c (by simp [hc])) c hc
  | case3 rest hne ih =>
    simp only [convertNewlines, List.mem_cons]
    rintro c (rfl | hc)
    · decide
    · exact ih (fun c hc => h c (by simp [hc])) c hc
  | case4 c0 rest hne1 hne2 ih =>
    simp only [convertNewlines, List.mem_cons]
    rintro c (rfl | hc)
    · exact h c (by simp)
    · exact ih (fun c hc => h c (by simp [hc])) c hc

theorem normalizeText_of_ws (s : String) (h : ∀ c ∈ s.data, jsWhitespace c = true) :
    normalizeText s = "" := by
  unfold normalizeText
  have hconv := convertNewlines_ws s.data h
  rcases collapseWs_of_ws (convertNewlines s.data) hconv with hc | hc
  · rw [hc]
    decide
  · rw [hc]
    decide

/-- The token-level overlap identity for two consecutive full-stride
windows: when window `k` is entirely inside the token stream, its last `ov`
tokens are exactly the first `ov` tokens of window `k + 1`, and window
`k + 1` holds at least `ov` tokens. -/
theorem window_overlap (toks : List String) (win ov : Nat) (hov : ov < win)
    (k : Nat) (hfull : k * (win - ov) + win ≤ toks.length) :
    lastN ov (chunkWindow toks win (win - ov) k)
      = (chunkWindow toks win (win - ov) (k + 1)).take ov ∧
    ov ≤ (chunkWindow toks win (win - ov) (k + 1)).length := by
  have hlenk : (chunkWindow toks win (win - ov) k).length = win := by
    rw [chunkWindow, List.length_take, List.length_drop]
    have e0 : k * (win - ov) ≤ toks.length := by omega
    omega
  have e1 : (k + 1) * (win - ov) = k * (win - ov) + (win - ov) := by ring
  constructor
  · rw [lastN, hlenk, chunkWindow, chunkWindow, List.drop_take, List.drop_drop,
      List.take_take]
    have e2 : win - (win - ov) = ov := by omega
    have e3 : min ov win = ov := min_eq_left (le_of_lt hov)
    rw [e2, e3]
    congr 1
    congr 1
    ring
  · rw [chunkWindow, List.length_take, List.length_drop, e1]
    omega

/-- The decomposition of any `chunkText` run on non-blank input. -/
theorem chunkText_shape (rawText : String) (options : ChunkingOptions)
    (hnorm : normalizeText rawText ≠ "")
    (htoks : splitTokens (normalizeText rawText) ≠ []) :
    ∃ m extra,
      chunkText rawText options
        = mergeTailChunk
            (stdChunks options.jobId options.url (options.headingPath.getD [])
              (splitTokens (normalizeText rawText)) (effectiveWindow options)
              (max (effectiveWindow options - effectiveOverlap options) 1) m) extra ∧
      (∀ k, 1 ≤ k → k < m →
        options.minTokensPerChunk.getD MIN_TOKENS_PER_CHUNK
          ≤ (chunkWindow (splitTokens (normalizeText rawText)) (effectiveWindow options)
              (max (effectiveWindow options - effectiveOverlap options) 1) k).length) := by
  obtain ⟨m, extra, -, heq, hmin⟩ := chunkLoop_shape options.jobId options.url
    (options.headingPath.getD []) (splitTokens (normalizeText rawText))
    (effectiveWindow options) (effectiveOverlap options)
    (options.minTokensPerChunk.getD MIN_TOKENS_PER_CHUNK)
    (splitTokens (normalizeText rawText)).length 0 0 (by omega) (by omega)
    (by omega)
  refine ⟨m, extra, ?_, hmin⟩
  rw [← heq]
  simp only [chunkText]
  rw [if_neg hnorm, if_neg htoks]
  rfl

/-- C3 counterexample: on `"a b c"` with `tokensPerChunk = 5`,
`overlapTokens = 4`, `minTokensPerChunk = 1` (so window 5, overlap
`min 4 (5-1) = 4`, stride 1), the run emits exactly the three window chunks
`["a","b","c"]`, `["b","c"]`, `["c"]` — every window meets the minimum, so
no tail merge occurs — yet the last 4 tokens of chunk 0 are `["a","b","c"]`
while the first 4 tokens of chunk 1 are `["b","c"]`: the claimed overlap
invariant fails for adjacent chunks not separated by a tail merge, because
a window that reaches the end of the token stream is shorter than the
nominal window. -/
theorem chunkText_overlap_counterexample :
    chunkText "a b c" chunkOptsOv
      = [mkChunk "j" "u" [] 0 ["a", "b", "c"], mkChunk "j" "u" [] 1 ["b", "c"],
         mkChunk "j" "u" [] 2 ["c"]] ∧
    lastN (effectiveOverlap chunkOptsOv)
        ((chunkText "a b c" chunkOptsOv).getD 0 default).tokens
      ≠ (((chunkText "a b c" chunkOptsOv).getD 1 default).tokens).take
          (effectiveOverlap chunkOptsOv) := by
  decide

/-- C3 (amended): for every input text and options, (1) whitespace-only
input yields no chunks; (2) every emitted chunk except possibly the first
has word count at least `minTokensPerChunk` (an undersized tail window is
merged into the previous chunk rather than emitted); and (3) the overlap
invariant holds between adjacent chunks `i` and `i + 1` whenever chunk `i`
occupies a full window of `effectiveWindow` tokens: its last
`effectiveOverlap` tokens equal the first `effectiveOverlap` tokens of
chunk `i + 1`, even when chunk `i + 1` is the merge-extended tail. -/
theorem chunkText_spec (rawText : String) (options : ChunkingOptions) :
    ((∀ c ∈ rawText.data, jsWhitespace c = true) → chunkText rawText options = []) ∧
    (∀ k, 1 ≤ k → k < (chunkText rawText options).length →
      options.minTokensPerChunk.getD MIN_TOKENS_PER_CHUNK
        ≤ ((chunkText rawText options).getD k default).wordCount) ∧
    (∀ i, i + 1 < (chunkText rawText options).length →
      ((chunkText rawText options).getD i default).tokens.length
          = effectiveWindow options →
      lastN (effectiveOverlap options)
          ((chunkText rawText options).getD i default).tokens
        = (((chunkText rawText options).getD (i + 1) default).tokens).take
            (effectiveOverlap options)) := by
  by_cases hnorm : normalizeText rawText = ""
  · have hcs : chunkText rawText options = [] := by
      simp only [chunkText]
      rw [if_pos hnorm]
    refine ⟨fun _ => hcs, ?_, ?_⟩
    · intro k hk1 hk2
      rw [hcs] at hk2
      simp only [List.length_nil] at hk2
      omega
    · intro i hi _
      rw [hcs] at hi
      simp only [List.length_nil] at hi
      omega
  · by_cases htoks : splitTokens (normalizeText rawText) = []
    · have hcs : chunkText rawText options = [] := by
        simp only [chunkText]
        rw [if_neg hnorm, if_pos htoks]
      refine ⟨fun _ => hcs, ?_, ?_⟩
      · intro k hk1 hk2
        rw [hcs] at hk2
        simp only [List.length_nil] at hk2
        omega
      · intro i hi _
        rw [hcs] at hi
        simp only [List.length_nil] at hi
        omega
    · obtain ⟨m, extra, heq, hmin⟩ := chunkText_shape rawText options hnorm htoks
      set toks := splitTokens (normalizeText rawText) with htoksdef
      set hpv := options.headingPath.getD [] with hpvdef
      set win := effectiveWindow options with hwindef
      set ov := effectiveOverlap options with hovdef
      set minTok := options.minTokensPerChunk.getD MIN_TOKENS_PER_CHUNK with hmtdef
      set stp := max (win - ov) 1 with hstpdef
      have hlen : (chunkText rawText options).length = m := by
        rw [heq, mergeTailChunk_length, stdChunks_length]
      refine ⟨fun hws => absurd (normalizeText_of_ws rawText hws) hnorm, ?_, ?_⟩
      · intro k hk1 hk2
        rw [hlen] at hk2
        rw [heq]
        rcases Nat.lt_or_ge (k + 1) m with hkf | hkl
        · rw [mergeTailChunk_getD_front _ _ _ _ (by rw [stdChunks_length]; omega),
            stdChunks_getD _ _ _ _ _ _ _ _ _ hk2]
          exact hmin k hk1 hk2
        · have hkm : k = m - 1 := by omega
          have hml := mergeTailChunk_getD_last
            (stdChunks options.jobId options.url hpv toks win stp m) extra default
            (stdChunks_ne_nil _ _ _ _ _ _ _ (by omega))
          rw [stdChunks_length] at hml
          rw [hkm, hml, stdChunks_getD _ _ _ _ _ _ _ _ _ (by omega)]
          exact le_trans (hmin (m - 1) (by omega) (by omega))
            (extendChunk_wordCount
              (mkChunk options.jobId options.url hpv (m - 1) (chunkWindow toks win stp (m - 1)))
              extra)
      · intro i hi hwinfull
        rw [hlen] at hi
        have hfr : (chunkText rawText options).getD i default
            = mkChunk options.jobId options.url hpv i (chunkWindow toks win stp i) := by
          rw [heq, mergeTailChunk_getD_front _ _ _ _ (by rw [stdChunks_length]; omega),
            stdChunks_getD _ _ _ _ _ _ _ _ _ (by omega)]
        rw [hfr] at hwinfull
        have hw : (chunkWindow toks win stp i).length = win := hwinfull
        by_cases hov0 : ov = 0
        · rw [hov0, lastN]
          simp [List.drop_length]
        · have hole : ov ≤ win - 1 := by
            rw [hovdef, hwindef]
            exact min_le_right _ _
          have hovlt : ov < win := by omega
          have hstp' : stp = win - ov := by
            rw [hstpdef]
            exact max_eq_left (by omega)
          rw [chunkWindow, List.length_take, List.length_drop, hstp'] at hw
          have hfull : i * (win - ov) + win ≤ toks.length := by
            generalize i * (win - ov) = A at hw ⊢
            omega
          obtain ⟨hovl, hlen2⟩ := window_overlap toks win ov hovlt i hfull
          rcases Nat.lt_or_ge (i + 2) m with h2 | h2
          · have hfr2 : (chunkText rawText options).getD (i + 1) default
                = mkChunk options.jobId options.url hpv (i + 1)
                    (chunkWindow toks win stp (i + 1)) := by
              rw [heq, mergeTailChunk_getD_front _ _ _ _ (by rw [stdChunks_length]; omega),
                stdChunks_getD _ _ _ _ _ _ _ _ _ (by omega)]
            rw [hfr, hfr2]
            show lastN ov (chunkWindow toks win stp i)
              = (chunkWindow toks win stp (i + 1)).take ov
            rw [hstp']
            exact hovl
          · have hi1 : i + 1 = m - 1 := by omega
            have hml := mergeTailChunk_getD_last
              (stdChunks options.jobId options.url hpv toks win stp m) extra default
              (stdChunks_ne_nil _ _ _ _ _ _ _ (by omega))
            rw [stdChunks_length] at hml
            have hfr2 : (chunkText rawText options).getD (i + 1) default
                = extendChunk (mkChunk options.jobId options.url hpv (m - 1)
                    (chunkWindow toks win stp (m - 1))) extra := by
              rw [heq, hi1, hml, stdChunks_getD _ _ _ _ _ _ _ _ _ (by omega)]
            rw [hfr, hfr2, extendChunk_tokens]
            show lastN ov (chunkWindow toks win stp i)
              = ((chunkWindow toks win stp (m - 1)) ++ extra).take ov
            rw [List.take_append_of_le_length]
            · rw [← hi1, hstp']
              exact hovl
            · rw [← hi1, hstp']
              exact hlen2

/-- Witness for `chunkText_spec` at concrete inputs: a whitespace-only
string yields no chunks; with window 2 / overlap 1 / minimum 1 on four
tokens, chunk 1 meets the minimum word count and the first two chunks
overlap in exactly one token. -/
theorem chunkText_spec_witness :
    chunkText " \t " { jobId := "j", url := "u" } = [] ∧
    chunkOptsW.minTokensPerChunk.getD MIN_TOKENS_PER_CHUNK
      ≤ ((chunkText "a b c d" chunkOptsW).getD 1 default).wordCount ∧
    lastN (effectiveOverlap chunkOptsW)
        ((chunkText "a b c d" chunkOptsW).getD 0 default).tokens
      = (((chunkText "a b c d" chunkOptsW).getD (0 + 1) default).tokens).take
          (effectiveOverlap chunkOptsW) :=
  ⟨(chunkText_spec " \t " { jobId := "j", url := "u" }).1 (by decide),
   (chunkText_spec "a b c d" chunkOptsW).2.1 1 (by decide) (by decide),
   (chunkText_spec "a b c d" chunkOptsW).2.2 0 (by decide) (by decide)⟩

end DocPilot
